import Mathlib

set_option maxHeartbeats 1000000
set_option maxRecDepth 4000
set_option synthInstance.maxHeartbeats 1000000
set_option synthInstance.maxSize 512
set_option linter.unreachableTactic false
set_option linter.unusedTactic false
set_option linter.unusedVariables false

/-!
Shallow embedding of the tetrolith game engine (src/pkg/game/game.go) and
verification of the specification's claims about it.

Go strings are modelled as lists of code points (`Word`); Go's `map[string]bool`
answer sets are modelled as duplicate-free lists; the per-board `time.Timer` is
modelled by an `Option Nat` field holding the scheduled duration in
milliseconds (`none` = stopped).  The slot array `[16]*Question` is modelled as
a total function `Nat → Option Question`; all operations only touch indices
`< NumSlots`, as the Go code does.
-/

/-- A Go string iterated as runes: the list of its code points. -/
abbrev Word := List Char

/-- Model of `strings.ToLower` (ASCII case mapping, which covers the
alphagram/answer alphabet used by the game). -/
def toLowerW (w : Word) : Word := w.map Char.toLower

/-- ASCII whitespace, modelling the character class trimmed by `strings.TrimSpace`. -/
def isSpaceChar (c : Char) : Bool := c = ' ' || c = '\t' || c = '\n' || c = '\r'

/-- Model of `strings.TrimSpace`: drop whitespace from both ends. -/
def trimSpace (w : Word) : Word :=
  ((w.dropWhile isSpaceChar).reverse.dropWhile isSpaceChar).reverse

/-- `alphagrammize` (game.go:743): sort the runes of a word by code point. -/
def alphagrammize (w : Word) : Word := w.insertionSort (· ≤ ·)

/-- `TotalNumQuestions` (game.go:28). -/
def TotalNumQuestions : Nat := 50
/-- `NumSlots` (game.go:29). -/
def NumSlots : Nat := 16
/-- `TickDuration` (game.go:30), in milliseconds. -/
def TickDuration : Nat := 1000
/-- `OppTickDuration` (game.go:31), in milliseconds. -/
def OppTickDuration : Nat := 3000

/-- `wordsearcher.Alphagram`: the provider's question, a canonical alphagram
string together with its valid answer words. -/
structure WSAlphagram where
  alphagram : Word
  words : List Word
deriving DecidableEq, Repr

/-- `Question` (game.go:114). -/
structure Question where
  origQuestion : WSAlphagram
  whose : Nat
  answerMap : List Word := []
deriving DecidableEq, Repr

/-- `Question.populateMap` (game.go:120): the answer map is rebuilt from the
original word list, lowercased (duplicates collapse as in a Go map). -/
def populateMap (q : Question) : Question :=
  { q with answerMap := (q.origQuestion.words.map toLowerW).dedup }

/-- `Question.answersLeft` (game.go:127). -/
def answersLeft (q : Question) : Nat := q.answerMap.length

/-- `BoardStatus` (game.go:53). -/
inductive BoardStatus
  | PieceDropping
  | PieceAboutToDrop
  | PlayerQueueEmpty
deriving DecidableEq, Repr

/-- `StateChangeType` (game.go:62).  `Unset` models the Go zero value `""`
that a freshly constructed board carries before any change is recorded. -/
inductive StateChangeType
  | Unset
  | PieceFall
  | PieceLand
  | StackRise
  | StackQueue
  | FullySolveQuestion
  | Lost
deriving DecidableEq, Repr

/-- `StateChange` (game.go:81). -/
structure StateChange where
  changeType : StateChangeType
  payloadNum : Int := 0
  payloadNum2 : Int := 0
  payloadString : Word := []
deriving DecidableEq, Repr

/-- `GameBoard` (game.go:88).  Channels and the manager back-pointer are
outside the per-operation state; the two timers are modelled by their
scheduled durations. -/
structure GameBoard where
  slots : Nat → Option Question
  timer : Option Nat
  queue : List Question
  oppQueue : List Question
  fallerPos : Int
  dead : Bool
  won : Bool
  idx : Nat
  oppqueueReady : Bool
  solved : Nat
  status : BoardStatus
  lastStateChange : StateChange

/-- `newGameBoard` (game.go:306): fresh board with stopped timers; the Go zero
values give `PieceDropping` status and an empty last state change. -/
def newGameBoard (idx : Nat) : GameBoard where
  slots := fun _ => none
  timer := none
  queue := []
  oppQueue := []
  fallerPos := -1
  dead := false
  won := false
  idx := idx
  oppqueueReady := false
  solved := 0
  status := .PieceDropping
  lastStateChange := { changeType := .Unset }

/-- The loop body of `GameBoard.topOfStack` (game.go:392), iterating over the
given slot indices. -/
def topOfStackGo (slots : Nat → Option Question) (fallerPos : Int) : List Nat → Nat
  | [] => NumSlots
  | i :: rest =>
    if (slots i).isSome ∧ (i : Int) ≠ fallerPos then i
    else topOfStackGo slots fallerPos rest

/-- `GameBoard.topOfStack` (game.go:392): the topmost (lowest-indexed) slot
that is occupied and is not the faller, or `NumSlots` if there is none. -/
def GameBoard.topOfStack (gb : GameBoard) : Nat :=
  topOfStackGo gb.slots gb.fallerPos (List.range NumSlots)

/-- Parallel swap `slots[i], slots[j] = slots[j], slots[i]`. -/
def swapSlots (slots : Nat → Option Question) (i j : Nat) : Nat → Option Question :=
  Function.update (Function.update slots i (slots j)) j (slots i)

/-- `GameBoard.LetGoNextPiece` (game.go:508): pop the tail of the player queue
into slot 0 (no-op when the queue is empty). -/
def GameBoard.LetGoNextPiece (gb : GameBoard) : GameBoard :=
  match gb.queue.getLast? with
  | some nextq =>
    { gb with queue := gb.queue.dropLast, slots := Function.update gb.slots 0 (some nextq) }
  | none => gb

/-- The adjacent-swap loop of `addOppQueue` (game.go:529):
`for i := 1; i < 16; i++ { slots[i], slots[i-1] = slots[i-1], slots[i] }`. -/
def shiftUpLoop (slots : Nat → Option Question) : Nat → Option Question :=
  (List.range' 1 (NumSlots - 1)).foldl (fun s i => swapSlots s i (i - 1)) slots

/-- The drain loop of `GameBoard.addOppQueue` (game.go:522): pop each queued
attack from the head, shift every slot up by one, place the attack at the
bottom, and flag death when slot 0 is occupied while attacks remain. -/
def addOppQueueGo (slots : Nat → Option Question) (dead : Bool) :
    List Question → (Nat → Option Question) × Bool × Nat
  | [] => (slots, dead, 0)
  | nextq :: rest =>
    let s := Function.update (shiftUpLoop slots) (NumSlots - 1) (some nextq)
    let dead := if (s 0).isSome ∧ rest ≠ [] then true else dead
    let r := addOppQueueGo s dead rest
    (r.1, r.2.1, r.2.2 + 1)

/-- `GameBoard.addOppQueue` (game.go:522). Returns the board and the number of
attacks added. -/
def GameBoard.addOppQueue (gb : GameBoard) : GameBoard × Nat :=
  let r := addOppQueueGo gb.slots gb.dead gb.oppQueue
  ({ gb with slots := r.1, dead := r.2.1, oppQueue := [] }, r.2.2)

/-- The landing / falling tail of `GameBoard.Tick` (game.go:467-505), reached
with the `topOfStack` value computed earlier in the tick. -/
def tickFall (gb : GameBoard) (t : Nat) : GameBoard :=
  if gb.fallerPos = (t : Int) - 1 then
    -- landed naturally (game.go:467-485)
    let gb := { gb with lastStateChange :=
      { changeType := .PieceLand, payloadNum := gb.fallerPos, payloadNum2 := gb.fallerPos - 1 } }
    let gb :=
      if 0 < gb.fallerPos then
        { gb with slots := swapSlots gb.slots (gb.fallerPos - 1).toNat gb.fallerPos.toNat }
      else gb
    let tickDur := if gb.fallerPos = 0 then TickDuration else TickDuration / 4
    { gb with fallerPos := -1, status := .PieceAboutToDrop, timer := some tickDur }
  else if gb.fallerPos = 0 ∧ t = 0 then
    -- no space for the faller (game.go:486-492)
    { gb with dead := true, lastStateChange := { changeType := .Lost } }
  else
    -- still in the air (game.go:493-505)
    let gb :=
      if 0 < gb.fallerPos then
        { gb with slots := swapSlots gb.slots (gb.fallerPos - 1).toNat gb.fallerPos.toNat }
      else gb
    let gb := { gb with lastStateChange :=
      { changeType := .PieceFall, payloadNum := gb.fallerPos, payloadNum2 := gb.fallerPos - 1 } }
    { gb with status := .PieceDropping, timer := some TickDuration }

/-- `GameBoard.Tick` (game.go:407): advance the board by one main-timer fire. -/
def GameBoard.Tick (gb : GameBoard) : GameBoard :=
  if gb.status = .PieceDropping then
    let t := gb.topOfStack
    if t = 0 then
      { gb with dead := true, lastStateChange := { changeType := .Lost } }
    else
      let gb := if gb.fallerPos = -1 then gb.LetGoNextPiece else gb
      let gb := { gb with fallerPos := gb.fallerPos + 1 }
      tickFall gb t
  else
    -- PieceAboutToDrop or PlayerQueueEmpty (game.go:428-465).  When the opp
    -- queue is flagged ready but empty, Go logs an error and falls through
    -- without clearing the flag.
    if gb.oppqueueReady ∧ gb.oppQueue ≠ [] then
      let r := gb.addOppQueue
      let gb := { r.1 with oppqueueReady := false }
      if gb.dead then { gb with lastStateChange := { changeType := .Lost } }
      else
        { gb with timer := some TickDuration,
                  lastStateChange := { changeType := .StackRise, payloadNum := (r.2 : Int) } }
    else
      if gb.queue = [] then
        { gb with status := .PlayerQueueEmpty, timer := some TickDuration }
      else
        let t := gb.topOfStack
        if t = 0 then
          { gb with dead := true, lastStateChange := { changeType := .Lost } }
        else
          let gb := gb.LetGoNextPiece
          let gb := { gb with fallerPos := 0 }
          tickFall gb t

/-- `solveQuestion` (game.go:699): returns the updated question and the Go
results `(partiallySolved, fullySolved, wrong)`. -/
def solveQuestion (q : Question) (guess : Word) : Question × Bool × Bool × Bool :=
  if guess ∈ q.answerMap then
    let q := { q with answerMap := q.answerMap.erase guess }
    (q, true, q.answerMap.isEmpty, false)
  else
    (q, false, false, decide (alphagrammize guess = toLowerW q.origQuestion.alphagram))

/-- The mutable locals of the slot walk in `handleGuessEvent` (game.go:578-601). -/
structure ScanState where
  slots : Nat → Option Question
  partiallySolved : Bool := false
  fullySolvedQuestion : Bool := false
  gotWrong : Bool := false
  fullySolvedSlot : Int := -1
  madePunishableMistake : Bool := false
  stateChanged : Bool := false

/-- The slot walk of `handleGuessEvent` (game.go:585-601) over the given slot
indices; a partial hit breaks out of the loop. -/
def scanGo (fallerPos : Int) (g : Word) : List Nat → ScanState → ScanState
  | [], st => st
  | slot :: rest, st =>
    match st.slots slot with
    | none => scanGo fallerPos g rest st
    | some question =>
      let r := solveQuestion question g
      let st := { st with slots := Function.update st.slots slot (some r.1),
                          partiallySolved := r.2.1,
                          fullySolvedQuestion := r.2.2.1,
                          gotWrong := r.2.2.2 }
      let st := if st.fullySolvedQuestion then { st with fullySolvedSlot := (slot : Int) } else st
      if st.partiallySolved then { st with stateChanged := true }
      else
        let st :=
          if st.gotWrong ∧ (slot : Int) = fallerPos then
            { st with stateChanged := true, madePunishableMistake := true }
          else st
        scanGo fallerPos g rest st

/-- The downward shift loop after a full solve (game.go:644-648):
`for lastSlot > 0 && slots[lastSlot] != nil && lastSlot != fallerPos`. -/
def shiftDownLoop (fallerPos : Int) (slots : Nat → Option Question) :
    Nat → (Nat → Option Question)
  | 0 => slots
  | l + 1 =>
    if (slots (l + 1)).isSome ∧ ((l + 1 : Int) ≠ fallerPos) then
      shiftDownLoop fallerPos (swapSlots slots (l + 1) (l + 2)) l
    else slots

/-- `GameBoard.handleGuessEvent` (game.go:572): handle one guess.  Returns the
new board, the question sent to the manager's attack router (if any), and the
Go return value `stateChanged`.  The faller-slot index conversions `Int.toNat`
are exercised only with `fallerPos ≥ 0`, which the punish branch guarantees. -/
def GameBoard.handleGuessEvent (gb : GameBoard) (gRaw : Word) :
    GameBoard × Option Question × Bool :=
  let g := toLowerW (trimSpace gRaw)
  let st := scanGo gb.fallerPos g (List.range NumSlots) { slots := gb.slots }
  let gb := { gb with slots := st.slots }
  if ¬ st.partiallySolved ∧ st.madePunishableMistake then
    -- punish (game.go:602-621): Timer.Stop, drop the faller onto the stack
    let gb := { gb with timer := none }
    let t := gb.topOfStack
    if t = 0 then
      ({ gb with dead := true, lastStateChange := { changeType := .Lost } }, none, st.stateChanged)
    else
      let gb := { gb with slots := swapSlots gb.slots gb.fallerPos.toNat (t - 1) }
      let gb := { gb with lastStateChange :=
        { changeType := .PieceLand, payloadNum := (t : Int) - 1, payloadNum2 := gb.fallerPos } }
      ({ gb with fallerPos := -1, status := .PieceAboutToDrop,
                 timer := some (TickDuration / 4) }, none, st.stateChanged)
  else if st.fullySolvedQuestion then
    -- full solve (game.go:622-663)
    let s := st.fullySolvedSlot.toNat
    let emit : Option Question :=
      match gb.slots s with
      | some q => if q.whose = gb.idx then some (populateMap q) else none
      | none => none
    let gb := { gb with slots := Function.update gb.slots s none, solved := gb.solved + 1,
                        lastStateChange :=
                          { changeType := .FullySolveQuestion, payloadNum := st.fullySolvedSlot } }
    if gb.fallerPos = (s : Int) then
      ({ gb with fallerPos := -1, status := .PieceAboutToDrop,
                 timer := some (TickDuration / 4) }, emit, st.stateChanged)
    else
      let gb := { gb with slots := shiftDownLoop gb.fallerPos gb.slots (s - 1) }
      let gb :=
        if gb.queue = [] ∧ (List.range NumSlots).all (fun i => (gb.slots i).isNone) then
          { gb with won := true }
        else gb
      (gb, emit, st.stateChanged)
  else (gb, none, st.stateChanged)

/-- `Status` of the match manager (game.go:20). -/
inductive MStatus
  | Countdown
  | Playing
  | PermanentlyOver
deriving DecidableEq, Repr

/-- `GameStateManager` (game.go:35); channels, timers and the RPC client are
outside the modelled state. -/
structure GameStateManager where
  status : MStatus
  boards : List GameBoard
  players : List Word
  questionOffset : Nat

/-- Append a question to the queue of board `whose` (game.go:194). -/
def pushQueue (q : Question) : Nat → List GameBoard → List GameBoard
  | _, [] => []
  | 0, b :: rest => { b with queue := b.queue ++ [q] } :: rest
  | n + 1, b :: rest => b :: pushQueue q n rest

/-- The question construction of `start` (game.go:184-195): owner by index
parity, alphagram re-sorted by rune, answer map populated. -/
def mkStartQuestion (idx : Nat) (alph : WSAlphagram) : Question :=
  let q : Question := { origQuestion := alph, whose := idx % 2 }
  let q := { q with origQuestion :=
    { q.origQuestion with alphagram := alphagrammize q.origQuestion.alphagram } }
  populateMap q

/-- `GameStateManager.start` (game.go:150-210), modelled from the point after
the provider RPC and the seeded shuffle: given the shuffled alphagram list,
either fail with `too few questions left` or deal
`[questionOffset, questionOffset+TotalNumQuestions)`, reallocate the boards,
tick each board once, and move to Playing. -/
def start (gs : GameStateManager) (shuffledAlphagrams : List WSAlphagram) :
    Except String GameStateManager :=
  if (shuffledAlphagrams.length : Int) - (gs.questionOffset : Int) < (TotalNumQuestions : Int) then
    Except.error ("too few questions left")
  else
    let dealt := (shuffledAlphagrams.drop gs.questionOffset).take TotalNumQuestions
    let boards := (List.range gs.players.length).map newGameBoard
    let boards := dealt.enum.foldl
      (fun bds p => pushQueue (mkStartQuestion p.1 p.2) (p.1 % 2) bds) boards
    let boards := boards.map GameBoard.Tick
    Except.ok { gs with boards := boards,
                        questionOffset := gs.questionOffset + TotalNumQuestions,
                        status := .Playing }

/-- One iteration of `GameStateManager.Loop` receiving the countdown timer
(game.go:249-256), together with the loop epilogue (game.go:296-297) when
`start` fails: the loop breaks, status becomes PermanentlyOver and one final
snapshot is emitted.  Returns the new manager state, whether the loop exited,
and the number of snapshots emitted by the epilogue. -/
def loopCountdownTimerEvent (gs : GameStateManager) (shuffled : List WSAlphagram) :
    GameStateManager × Bool × Nat :=
  if gs.status = .Countdown then
    match start gs shuffled with
    | .error _ => ({ gs with status := .PermanentlyOver }, true, 1)
    | .ok gs' => (gs', false, 0)
  else (gs, false, 0)

/-! ### Invariant predicates -/

/-- Slot `i` is occupied and is not the faller. -/
def occNF (slots : Nat → Option Question) (f : Int) (i : Nat) : Prop :=
  slots i ≠ none ∧ (i : Int) ≠ f

instance (slots : Nat → Option Question) (f : Int) (i : Nat) : Decidable (occNF slots f i) := by
  unfold occNF; infer_instance

/-- The non-faller occupied slots form a contiguous suffix of `[0, NumSlots)`:
below any occupied non-faller slot, every slot is occupied or is the faller. -/
def contigAll (slots : Nat → Option Question) (f : Int) : Prop :=
  ∀ i, i < NumSlots → occNF slots f i →
    ∀ j, j < NumSlots → i < j → (slots j ≠ none ∨ (j : Int) = f)

/-- Contiguity restricted to indices `≥ 1` (slot 0 unconstrained). -/
def contigFrom1 (slots : Nat → Option Question) (f : Int) : Prop :=
  ∀ i, i < NumSlots → 1 ≤ i → occNF slots f i →
    ∀ j, j < NumSlots → i < j → (slots j ≠ none ∨ (j : Int) = f)

instance (slots : Nat → Option Question) (f : Int) : Decidable (contigAll slots f) := by
  unfold contigAll; infer_instance

instance (slots : Nat → Option Question) (f : Int) : Decidable (contigFrom1 slots f) := by
  unfold contigFrom1; infer_instance

/-- The contiguity property claimed by the spec, as a board predicate. -/
def GameBoard.ContigSuffix (gb : GameBoard) : Prop := contigAll gb.slots gb.fallerPos

/-- `topOfStack` over an arbitrary slot function / faller pair. -/
def topOfStackOf (slots : Nat → Option Question) (f : Int) : Nat :=
  topOfStackGo slots f (List.range NumSlots)

lemma GameBoard.topOfStack_def (gb : GameBoard) :
    gb.topOfStack = topOfStackOf gb.slots gb.fallerPos := rfl

/-- The inductive invariant of a game board: contiguity on indices `≥ 1`,
a non-dropping status forces no faller in flight, and a faller in flight sits
at least two slots above the stack top. -/
def BoardInv (gb : GameBoard) : Prop :=
  contigFrom1 gb.slots gb.fallerPos ∧
  (gb.status ≠ .PieceDropping → gb.fallerPos = -1) ∧
  (-1 ≤ gb.fallerPos) ∧
  (gb.fallerPos ≠ -1 → gb.fallerPos + 2 ≤ (gb.topOfStack : Int))

instance (gb : GameBoard) : Decidable (BoardInv gb) := by
  unfold BoardInv; infer_instance

/-! ### topOfStack characterization -/

lemma topOfStackGo_range'_spec (slots : Nat → Option Question) (f : Int) :
    ∀ n a, (topOfStackGo slots f (List.range' a n) = NumSlots ∧
              ∀ i, a ≤ i → i < a + n → slots i = none ∨ (i : Int) = f) ∨
           (∃ r, topOfStackGo slots f (List.range' a n) = r ∧ a ≤ r ∧ r < a + n ∧
              slots r ≠ none ∧ (r : Int) ≠ f ∧
              ∀ i, a ≤ i → i < r → slots i = none ∨ (i : Int) = f) := by
  intro n
  induction n with
  | zero =>
    intro a; left
    exact ⟨rfl, fun i h1 h2 => absurd h2 (by omega)⟩
  | succ n ih =>
    intro a
    rw [List.range'_succ]
    by_cases h : (slots a).isSome ∧ (a : Int) ≠ f
    · right
      refine ⟨a, ?_, le_refl a, by omega, ?_, h.2, fun i h1 h2 => absurd h2 (by omega)⟩
      · simp only [topOfStackGo, if_pos h]
      · exact Option.isSome_iff_ne_none.mp h.1
    · have hstep : topOfStackGo slots f (a :: List.range' (a + 1) n) =
          topOfStackGo slots f (List.range' (a + 1) n) := by
        simp only [topOfStackGo, if_neg h]
      have ha : slots a = none ∨ (a : Int) = f := by
        rcases not_and_or.mp h with h' | h'
        · exact Or.inl (Option.not_isSome_iff_eq_none.mp h')
        · exact Or.inr (not_not.mp h')
      rcases ih (a + 1) with ⟨h1, h2⟩ | ⟨r, h1, h2, h3, h4, h5, h6⟩
      · left
        refine ⟨hstep.trans h1, fun i hi1 hi2 => ?_⟩
        rcases Nat.eq_or_lt_of_le hi1 with rfl | hlt
        · exact ha
        · exact h2 i (by omega) (by omega)
      · right
        refine ⟨r, hstep.trans h1, by omega, by omega, h4, h5, fun i hi1 hi2 => ?_⟩
        rcases Nat.eq_or_lt_of_le hi1 with rfl | hlt
        · exact ha
        · exact h6 i (by omega) hi2

lemma topOfStackOf_le (slots : Nat → Option Question) (f : Int) :
    topOfStackOf slots f ≤ NumSlots := by
  unfold topOfStackOf
  rw [List.range_eq_range']
  rcases topOfStackGo_range'_spec slots f NumSlots 0 with ⟨h1, _⟩ | ⟨r, h1, _, h3, _⟩
  · exact le_of_eq h1
  · rw [h1]; omega

lemma topOfStackOf_min (slots : Nat → Option Question) (f : Int) :
    ∀ i, i < topOfStackOf slots f → i < NumSlots → slots i = none ∨ (i : Int) = f := by
  intro i hi hin
  unfold topOfStackOf at hi
  rw [List.range_eq_range'] at hi
  rcases topOfStackGo_range'_spec slots f NumSlots 0 with ⟨h1, h2⟩ | ⟨r, h1, _, h3, _, _, h6⟩
  · exact h2 i (Nat.zero_le i) (by omega)
  · rw [h1] at hi
    exact h6 i (Nat.zero_le i) hi

lemma topOfStackOf_occ (slots : Nat → Option Question) (f : Int)
    (h : topOfStackOf slots f < NumSlots) :
    slots (topOfStackOf slots f) ≠ none ∧ ((topOfStackOf slots f : Int)) ≠ f := by
  unfold topOfStackOf at h ⊢
  rw [List.range_eq_range'] at h ⊢
  rcases topOfStackGo_range'_spec slots f NumSlots 0 with ⟨h1, _⟩ | ⟨r, h1, _, _, h4, h5, _⟩
  · rw [h1] at h; omega
  · rw [h1] at h ⊢; exact ⟨h4, h5⟩

lemma topOfStackOf_le_of_occ (slots : Nat → Option Question) (f : Int) (i : Nat)
    (hin : i < NumSlots) (hocc : slots i ≠ none) (hf : (i : Int) ≠ f) :
    topOfStackOf slots f ≤ i := by
  by_contra hlt
  rcases topOfStackOf_min slots f i (by omega) hin with h | h
  · exact hocc h
  · exact hf h

/-! ### Pointwise slot lemmas -/

lemma swapSlots_apply (s : Nat → Option Question) (i j k : Nat) :
    swapSlots s i j k = if k = j then s i else if k = i then s j else s k := by
  unfold swapSlots
  by_cases hj : k = j
  · subst hj; simp [Function.update_apply]
  · by_cases hi : k = i
    · subst hi; simp [Function.update_apply, hj]
    · simp [Function.update_apply, hi, hj]

/-! ### Scan characterization -/

/-- The guess is a wrong-but-matching anagram at slot `i`: it misses the
answer map but alphagrammizes to the slot's lowercased alphagram
(the `wrong` result of `solveQuestion`). -/
def wrongAt (slots : Nat → Option Question) (g : Word) (i : Nat) : Prop :=
  ∃ q, slots i = some q ∧ g ∉ q.answerMap ∧
    alphagrammize g = toLowerW q.origQuestion.alphagram

instance (slots : Nat → Option Question) (g : Word) (i : Nat) :
    Decidable (wrongAt slots g i) :=
  decidable_of_iff (∃ q ∈ (slots i).toList, g ∉ q.answerMap ∧
      alphagrammize g = toLowerW q.origQuestion.alphagram) (by
    cases h : slots i <;> simp [wrongAt, h])

/-- The first slot (in the given index order) whose answer map contains the
guess, together with its question. -/
def firstHitGo (slots : Nat → Option Question) (g : Word) :
    List Nat → Option (Nat × Question)
  | [] => none
  | i :: rest =>
    match slots i with
    | none => firstHitGo slots g rest
    | some q => if g ∈ q.answerMap then some (i, q) else firstHitGo slots g rest

/-- The lowest-indexed slot whose answer map contains the guess. -/
def firstHit (slots : Nat → Option Question) (g : Word) : Option (Nat × Question) :=
  firstHitGo slots g (List.range NumSlots)

lemma firstHitGo_none_iff (slots : Nat → Option Question) (g : Word) (L : List Nat) :
    firstHitGo slots g L = none ↔
      ∀ i ∈ L, ∀ q, slots i = some q → g ∉ q.answerMap := by
  induction L with
  | nil => simp [firstHitGo]
  | cons i rest ih =>
    cases hs : slots i with
    | none =>
      simp only [firstHitGo, hs]
      rw [ih]
      constructor
      · intro h j hj q hq
        rcases List.mem_cons.mp hj with rfl | hj'
        · rw [hs] at hq; exact absurd hq (by simp)
        · exact h j hj' q hq
      · intro h j hj q hq
        exact h j (List.mem_cons_of_mem i hj) q hq
    | some q =>
      simp only [firstHitGo, hs]
      by_cases hg : g ∈ q.answerMap
      · simp only [if_pos hg]
        constructor
        · intro h; exact absurd h (by simp)
        · intro h
          exact absurd hg (h i (List.mem_cons_self i rest) q hs)
      · simp only [if_neg hg]
        rw [ih]
        constructor
        · intro h j hj p hp
          rcases List.mem_cons.mp hj with rfl | hj'
          · rw [hs] at hp
            injection hp with hp'
            exact hp' ▸ hg
          · exact h j hj' p hp
        · intro h j hj p hp
          exact h j (List.mem_cons_of_mem i hj) p hp

lemma firstHitGo_some_spec (slots : Nat → Option Question) (g : Word) (L : List Nat)
    (i : Nat) (q : Question) (h : firstHitGo slots g L = some (i, q)) :
    i ∈ L ∧ slots i = some q ∧ g ∈ q.answerMap := by
  induction L with
  | nil => exact absurd h (by simp [firstHitGo])
  | cons j rest ih =>
    cases hs : slots j with
    | none =>
      simp only [firstHitGo, hs] at h
      rcases ih h with ⟨h1, h2, h3⟩
      exact ⟨List.mem_cons_of_mem j h1, h2, h3⟩
    | some p =>
      simp only [firstHitGo, hs] at h
      by_cases hg : g ∈ p.answerMap
      · rw [if_pos hg] at h
        injection h with h'
        injection h' with e1 e2
        subst e1; subst e2
        exact ⟨List.mem_cons_self j rest, hs, hg⟩
      · rw [if_neg hg] at h
        rcases ih h with ⟨h1, h2, h3⟩
        exact ⟨List.mem_cons_of_mem j h1, h2, h3⟩

lemma firstHitGo_range'_min (slots : Nat → Option Question) (g : Word) :
    ∀ (n a : Nat) (i : Nat) (q : Question),
      firstHitGo slots g (List.range' a n) = some (i, q) →
      ∀ j, a ≤ j → j < i → ∀ p, slots j = some p → g ∉ p.answerMap := by
  intro n
  induction n with
  | zero => intro a i q h; exact absurd h (by simp [firstHitGo])
  | succ n ih =>
    intro a i q h j hj1 hj2 p hp
    rw [List.range'_succ] at h
    cases hs : slots a with
    | none =>
      simp only [firstHitGo, hs] at h
      rcases Nat.eq_or_lt_of_le hj1 with rfl | hlt
      · rw [hs] at hp; exact absurd hp (by simp)
      · exact ih (a + 1) i q h j hlt hj2 p hp
    | some pa =>
      simp only [firstHitGo, hs] at h
      by_cases hg : g ∈ pa.answerMap
      · rw [if_pos hg] at h
        injection h with h'
        injection h' with e1 _
        omega
      · rw [if_neg hg] at h
        rcases Nat.eq_or_lt_of_le hj1 with rfl | hlt
        · rw [hs] at hp
          injection hp with hp'
          exact hp' ▸ hg
        · exact ih (a + 1) i q h j hlt hj2 p hp

lemma update_slots_self (slots : Nat → Option Question) (i : Nat) (q : Question)
    (h : slots i = some q) : Function.update slots i (some q) = slots := by
  rw [← h]; exact Function.update_eq_self i slots

lemma scanGo_no_hit (f : Int) (g : Word) (L : List Nat) :
    ∀ st : ScanState, st.partiallySolved = false → st.fullySolvedQuestion = false →
      firstHitGo st.slots g L = none →
      (scanGo f g L st).slots = st.slots ∧
      (scanGo f g L st).partiallySolved = false ∧
      (scanGo f g L st).fullySolvedQuestion = false ∧
      (scanGo f g L st).fullySolvedSlot = st.fullySolvedSlot ∧
      ((scanGo f g L st).madePunishableMistake = true ↔
        (st.madePunishableMistake = true ∨ ∃ j ∈ L, (j : Int) = f ∧ wrongAt st.slots g j)) ∧
      ((scanGo f g L st).stateChanged = true ↔
        (st.stateChanged = true ∨ ∃ j ∈ L, (j : Int) = f ∧ wrongAt st.slots g j)) := by
  induction L with
  | nil =>
    intro st hp hf _
    simp [scanGo, hp, hf]
  | cons i rest ih =>
    intro st hp hf hh
    cases hs : st.slots i with
    | none =>
      have hh' : firstHitGo st.slots g rest = none := by
        simpa [firstHitGo, hs] using hh
      have hscan : scanGo f g (i :: rest) st = scanGo f g rest st := by
        simp [scanGo, hs]
      have hext : (∃ j ∈ i :: rest, (j : Int) = f ∧ wrongAt st.slots g j) ↔
          (∃ j ∈ rest, (j : Int) = f ∧ wrongAt st.slots g j) := by
        constructor
        · rintro ⟨j, hj, hjf, hw⟩
          rcases List.mem_cons.mp hj with rfl | hj'
          · rcases hw with ⟨q, hq, _⟩
            rw [hs] at hq; exact absurd hq (by simp)
          · exact ⟨j, hj', hjf, hw⟩
        · rintro ⟨j, hj, hjf, hw⟩
          exact ⟨j, List.mem_cons_of_mem i hj, hjf, hw⟩
      rw [hscan]
      rcases ih st hp hf hh' with ⟨h1, h2, h3, h4, h5, h6⟩
      exact ⟨h1, h2, h3, h4, h5.trans (or_congr_right hext.symm),
             h6.trans (or_congr_right hext.symm)⟩
    | some q =>
      have hg : g ∉ q.answerMap := by
        rw [firstHitGo_none_iff] at hh
        exact hh i (List.mem_cons_self i rest) q hs
      have hh' : firstHitGo st.slots g rest = none := by
        simpa [firstHitGo, hs, hg] using hh
      have hupd : Function.update st.slots i (some q) = st.slots :=
        update_slots_self st.slots i q hs
      by_cases hc : alphagrammize g = toLowerW q.origQuestion.alphagram ∧ (i : Int) = f
      · -- a punishable wrong guess at the faller slot
        have hscan : scanGo f g (i :: rest) st = scanGo f g rest
            ({ st with partiallySolved := false, fullySolvedQuestion := false,
                       gotWrong := true, stateChanged := true,
                       madePunishableMistake := true }) := by
          simp [scanGo, hs, solveQuestion, hg, hc.1, hc.2, hp, hf, hupd]
        rw [hscan]
        rcases ih ({ st with partiallySolved := false, fullySolvedQuestion := false, gotWrong := true, stateChanged := true, madePunishableMistake := true }) rfl rfl hh' with ⟨h1, h2, h3, h4, h5, h6⟩
        refine ⟨h1, h2, h3, h4, ?_, ?_⟩
        · exact ⟨fun _ => Or.inr ⟨i, List.mem_cons_self i rest, hc.2, q, hs, hg, hc.1⟩,
                 fun _ => h5.mpr (Or.inl rfl)⟩
        · exact ⟨fun _ => Or.inr ⟨i, List.mem_cons_self i rest, hc.2, q, hs, hg, hc.1⟩,
                 fun _ => h6.mpr (Or.inl rfl)⟩
      · -- not a punishable slot: flags unchanged
        have hext : (∃ j ∈ i :: rest, (j : Int) = f ∧ wrongAt st.slots g j) ↔
            (∃ j ∈ rest, (j : Int) = f ∧ wrongAt st.slots g j) := by
          constructor
          · rintro ⟨j, hj, hjf, hw⟩
            rcases List.mem_cons.mp hj with rfl | hj'
            · rcases hw with ⟨q', hq', _, halpha⟩
              rw [hs] at hq'
              injection hq' with hq''
              exact absurd ⟨hq'' ▸ halpha, hjf⟩ hc
            · exact ⟨j, hj', hjf, hw⟩
          · rintro ⟨j, hj, hjf, hw⟩
            exact ⟨j, List.mem_cons_of_mem i hj, hjf, hw⟩
        have hscan : scanGo f g (i :: rest) st = scanGo f g rest
            ({ st with partiallySolved := false, fullySolvedQuestion := false,
                       gotWrong := decide (alphagrammize g = toLowerW q.origQuestion.alphagram) }) := by
          by_cases hw : alphagrammize g = toLowerW q.origQuestion.alphagram
          · have hif : (i : Int) ≠ f := fun he => hc ⟨hw, he⟩
            simp [scanGo, hs, solveQuestion, hg, hw, hif, hp, hf, hupd]
          · simp [scanGo, hs, solveQuestion, hg, hw, hp, hf, hupd]
        rw [hscan]
        rcases ih ({ st with partiallySolved := false, fullySolvedQuestion := false, gotWrong := decide (alphagrammize g = toLowerW q.origQuestion.alphagram) }) rfl rfl hh' with ⟨h1, h2, h3, h4, h5, h6⟩
        exact ⟨h1, h2, h3, h4, h5.trans (or_congr_right hext.symm),
               h6.trans (or_congr_right hext.symm)⟩

lemma scanGo_hit (f : Int) (g : Word) (L : List Nat) :
    ∀ (st : ScanState) (i : Nat) (q : Question),
      st.partiallySolved = false → st.fullySolvedQuestion = false →
      firstHitGo st.slots g L = some (i, q) →
      (scanGo f g L st).slots =
        Function.update st.slots i (some { q with answerMap := q.answerMap.erase g }) ∧
      (scanGo f g L st).partiallySolved = true ∧
      (scanGo f g L st).stateChanged = true ∧
      (scanGo f g L st).fullySolvedQuestion = (q.answerMap.erase g).isEmpty ∧
      (scanGo f g L st).fullySolvedSlot =
        (if (q.answerMap.erase g).isEmpty then (i : Int) else st.fullySolvedSlot) := by
  induction L with
  | nil =>
    intro st i q _ _ hh
    exact absurd hh (by simp [firstHitGo])
  | cons j rest ih =>
    intro st i q hp hf hh
    cases hs : st.slots j with
    | none =>
      have hh' : firstHitGo st.slots g rest = some (i, q) := by
        simpa [firstHitGo, hs] using hh
      have hscan : scanGo f g (j :: rest) st = scanGo f g rest st := by
        simp [scanGo, hs]
      rw [hscan]
      exact ih st i q hp hf hh'
    | some p =>
      by_cases hg : g ∈ p.answerMap
      · -- the hit is here
        have hij : j = i ∧ p = q := by
          have := hh
          simp only [firstHitGo, hs, if_pos hg, Option.some.injEq, Prod.mk.injEq] at this
          exact this
        obtain ⟨rfl, rfl⟩ := hij
        by_cases he : (p.answerMap.erase g).isEmpty
        · have hscan : scanGo f g (j :: rest) st =
              ({ st with slots := Function.update st.slots j
                           (some { p with answerMap := p.answerMap.erase g }),
                         partiallySolved := true,
                         fullySolvedQuestion := true,
                         gotWrong := false,
                         fullySolvedSlot := (j : Int),
                         stateChanged := true }) := by
            simp [scanGo, hs, solveQuestion, hg, he]
          rw [hscan]
          simp [he]
        · have hscan : scanGo f g (j :: rest) st =
              ({ st with slots := Function.update st.slots j
                           (some { p with answerMap := p.answerMap.erase g }),
                         partiallySolved := true,
                         fullySolvedQuestion := false,
                         gotWrong := false,
                         stateChanged := true }) := by
            simp [scanGo, hs, solveQuestion, hg, he]
          rw [hscan]
          simp [he]
      · -- the hit is further down
        have hh' : firstHitGo st.slots g rest = some (i, q) := by
          simpa [firstHitGo, hs, hg] using hh
        have hupd : Function.update st.slots j (some p) = st.slots :=
          update_slots_self st.slots j p hs
        by_cases hw : alphagrammize g = toLowerW p.origQuestion.alphagram
        · by_cases hjf : (j : Int) = f
          · have hscan : scanGo f g (j :: rest) st = scanGo f g rest
                ({ st with partiallySolved := false, fullySolvedQuestion := false,
                           gotWrong := true, stateChanged := true,
                           madePunishableMistake := true }) := by
              simp [scanGo, hs, solveQuestion, hg, hw, hjf, hp, hf, hupd]
            rw [hscan]
            exact ih ({ st with partiallySolved := false, fullySolvedQuestion := false, gotWrong := true, stateChanged := true, madePunishableMistake := true }) i q rfl rfl hh'
          · have hscan : scanGo f g (j :: rest) st = scanGo f g rest
                ({ st with partiallySolved := false, fullySolvedQuestion := false,
                           gotWrong := true }) := by
              simp [scanGo, hs, solveQuestion, hg, hw, hjf, hp, hf, hupd]
            rw [hscan]
            exact ih ({ st with partiallySolved := false, fullySolvedQuestion := false, gotWrong := true }) i q rfl rfl hh'
        · have hscan : scanGo f g (j :: rest) st = scanGo f g rest
              ({ st with partiallySolved := false, fullySolvedQuestion := false,
                         gotWrong := false }) := by
            simp [scanGo, hs, solveQuestion, hg, hw, hp, hf, hupd]
          rw [hscan]
          exact ih ({ st with partiallySolved := false, fullySolvedQuestion := false, gotWrong := false }) i q rfl rfl hh'

/-- The normalization applied to a raw guess (game.go:576). -/
def normalizeGuess (gRaw : Word) : Word := toLowerW (trimSpace gRaw)

lemma handleGuessEvent_no_hit (gb : GameBoard) (gRaw : Word)
    (hh : firstHit gb.slots (normalizeGuess gRaw) = none)
    (hnp : ¬ ∃ j ∈ List.range NumSlots,
        (j : Int) = gb.fallerPos ∧ wrongAt gb.slots (normalizeGuess gRaw) j) :
    gb.handleGuessEvent gRaw = (gb, none, false) := by
  obtain ⟨h1, h2, h3, h4, h5, h6⟩ :=
    scanGo_no_hit gb.fallerPos (normalizeGuess gRaw) (List.range NumSlots)
      ({ slots := gb.slots }) rfl rfl hh
  have hmpm : (scanGo gb.fallerPos (normalizeGuess gRaw) (List.range NumSlots)
      ({ slots := gb.slots } : ScanState)).madePunishableMistake = false := by
    rcases Bool.eq_false_or_eq_true ((scanGo gb.fallerPos (normalizeGuess gRaw)
        (List.range NumSlots) ({ slots := gb.slots } : ScanState)).madePunishableMistake)
      with h | h
    · rcases h5.mp h with h' | h'
      · exact absurd h' (by simp)
      · exact absurd h' hnp
    · exact h
  have hsc : (scanGo gb.fallerPos (normalizeGuess gRaw) (List.range NumSlots)
      ({ slots := gb.slots } : ScanState)).stateChanged = false := by
    rcases Bool.eq_false_or_eq_true ((scanGo gb.fallerPos (normalizeGuess gRaw)
        (List.range NumSlots) ({ slots := gb.slots } : ScanState)).stateChanged)
      with h | h
    · rcases h6.mp h with h' | h'
      · exact absurd h' (by simp)
      · exact absurd h' hnp
    · exact h
  unfold GameBoard.handleGuessEvent
  rw [show toLowerW (trimSpace gRaw) = normalizeGuess gRaw from rfl]
  simp only [h1, h2, h3, hmpm, hsc]
  simp

lemma topOfStack_mk (slots : Nat → Option Question) (timer : Option Nat)
    (queue oppQueue : List Question) (f : Int) (dead won : Bool) (idx : Nat)
    (ready : Bool) (solved : Nat) (status : BoardStatus) (lsc : StateChange) :
    GameBoard.topOfStack ⟨slots, timer, queue, oppQueue, f, dead, won, idx, ready,
      solved, status, lsc⟩ = topOfStackOf slots f := rfl

lemma handleGuessEvent_punish (gb : GameBoard) (gRaw : Word) (j : Nat) (hj : j < NumSlots)
    (hjf : (j : Int) = gb.fallerPos)
    (hw : wrongAt gb.slots (normalizeGuess gRaw) j)
    (hh : firstHit gb.slots (normalizeGuess gRaw) = none) :
    (gb.topOfStack = 0 →
      gb.handleGuessEvent gRaw =
        ({ gb with timer := none, dead := true,
                   lastStateChange := { changeType := .Lost } }, none, true)) ∧
    (gb.topOfStack ≠ 0 →
      gb.handleGuessEvent gRaw =
        ({ gb with timer := some (TickDuration / 4),
                   slots := swapSlots gb.slots j (gb.topOfStack - 1),
                   lastStateChange := { changeType := .PieceLand, payloadNum := (gb.topOfStack : Int) - 1, payloadNum2 := gb.fallerPos },
                   fallerPos := -1, status := .PieceAboutToDrop }, none, true)) := by
  obtain ⟨h1, h2, h3, h4, h5, h6⟩ :=
    scanGo_no_hit gb.fallerPos (normalizeGuess gRaw) (List.range NumSlots)
      ({ slots := gb.slots }) rfl rfl hh
  have hmpm := h5.mpr (Or.inr ⟨j, List.mem_range.mpr hj, hjf, hw⟩)
  have hsc := h6.mpr (Or.inr ⟨j, List.mem_range.mpr hj, hjf, hw⟩)
  have htn : gb.fallerPos.toNat = j := by
    rw [← hjf]; exact Int.toNat_natCast j
  constructor
  · intro ht
    unfold GameBoard.handleGuessEvent
    rw [show toLowerW (trimSpace gRaw) = normalizeGuess gRaw from rfl]
    simp only [h1, h2, hmpm, hsc, topOfStack_mk]
    rw [GameBoard.topOfStack_def] at ht
    simp [ht]
  · intro ht
    unfold GameBoard.handleGuessEvent
    rw [show toLowerW (trimSpace gRaw) = normalizeGuess gRaw from rfl]
    simp only [h1, h2, hmpm, hsc, topOfStack_mk]
    rw [GameBoard.topOfStack_def] at ht
    simp [ht, htn, GameBoard.topOfStack_def]

lemma handleGuessEvent_partialSolve (gb : GameBoard) (gRaw : Word) (i : Nat) (q : Question)
    (hh : firstHit gb.slots (normalizeGuess gRaw) = some (i, q))
    (hne : (q.answerMap.erase (normalizeGuess gRaw)).isEmpty = false) :
    gb.handleGuessEvent gRaw =
      ({ gb with slots := Function.update gb.slots i (some { q with answerMap := q.answerMap.erase (normalizeGuess gRaw) }) }, none, true) := by
  obtain ⟨h1, h2, h3, h4, h5⟩ :=
    scanGo_hit gb.fallerPos (normalizeGuess gRaw) (List.range NumSlots)
      ({ slots := gb.slots }) i q rfl rfl hh
  unfold GameBoard.handleGuessEvent
  rw [show toLowerW (trimSpace gRaw) = normalizeGuess gRaw from rfl]
  simp only [h1, h2, h3, h4, hne]
  simp

lemma handleGuessEvent_full_faller (gb : GameBoard) (gRaw : Word) (i : Nat) (q : Question)
    (hh : firstHit gb.slots (normalizeGuess gRaw) = some (i, q))
    (he : (q.answerMap.erase (normalizeGuess gRaw)).isEmpty = true)
    (hfp : gb.fallerPos = (i : Int)) :
    gb.handleGuessEvent gRaw =
      ({ gb with slots := Function.update gb.slots i none, solved := gb.solved + 1,
                 lastStateChange := { changeType := .FullySolveQuestion, payloadNum := (i : Int) },
                 fallerPos := -1, status := .PieceAboutToDrop, timer := some (TickDuration / 4) },
       (if q.whose = gb.idx
        then some (populateMap { q with answerMap := q.answerMap.erase (normalizeGuess gRaw) })
        else none), true) := by
  obtain ⟨h1, h2, h3, h4, h5⟩ :=
    scanGo_hit gb.fallerPos (normalizeGuess gRaw) (List.range NumSlots)
      ({ slots := gb.slots }) i q rfl rfl hh
  unfold GameBoard.handleGuessEvent
  rw [show toLowerW (trimSpace gRaw) = normalizeGuess gRaw from rfl]
  simp only [h1, h2, h3, h4, h5, he, if_pos rfl]
  simp [Int.toNat_natCast, Function.update_same, Function.update_idem, hfp]

lemma handleGuessEvent_full_nonfaller (gb : GameBoard) (gRaw : Word) (i : Nat) (q : Question)
    (hh : firstHit gb.slots (normalizeGuess gRaw) = some (i, q))
    (he : (q.answerMap.erase (normalizeGuess gRaw)).isEmpty = true)
    (hfp : gb.fallerPos ≠ (i : Int)) :
    gb.handleGuessEvent gRaw =
      ((if gb.queue = [] ∧ ((List.range NumSlots).all fun k =>
            ((shiftDownLoop gb.fallerPos (Function.update gb.slots i none) (i - 1)) k).isNone)
        then ({ gb with
                 slots := shiftDownLoop gb.fallerPos (Function.update gb.slots i none) (i - 1),
                 solved := gb.solved + 1,
                 lastStateChange := { changeType := .FullySolveQuestion, payloadNum := (i : Int) },
                 won := true })
        else ({ gb with
                 slots := shiftDownLoop gb.fallerPos (Function.update gb.slots i none) (i - 1),
                 solved := gb.solved + 1,
                 lastStateChange := { changeType := .FullySolveQuestion, payloadNum := (i : Int) } })),
       (if q.whose = gb.idx
        then some (populateMap { q with answerMap := q.answerMap.erase (normalizeGuess gRaw) })
        else none), true) := by
  obtain ⟨h1, h2, h3, h4, h5⟩ :=
    scanGo_hit gb.fallerPos (normalizeGuess gRaw) (List.range NumSlots)
      ({ slots := gb.slots }) i q rfl rfl hh
  unfold GameBoard.handleGuessEvent
  rw [show toLowerW (trimSpace gRaw) = normalizeGuess gRaw from rfl]
  rw [if_pos he] at h5
  simp only [h1, h2, h3, h4, h5, he, if_pos rfl, not_true, false_and, if_false]
  simp only [Int.toNat_natCast, Function.update_same, Function.update_idem]
  rw [if_neg hfp]
  rw [if_pos trivial]

/-! ### Tick branch equations -/

lemma LetGoNextPiece_empty (gb : GameBoard) (h : gb.queue = []) :
    gb.LetGoNextPiece = gb := by
  unfold GameBoard.LetGoNextPiece
  rw [h]
  rfl

lemma LetGoNextPiece_last (gb : GameBoard) (q : Question) (h : gb.queue.getLast? = some q) :
    gb.LetGoNextPiece =
      { gb with queue := gb.queue.dropLast, slots := Function.update gb.slots 0 (some q) } := by
  unfold GameBoard.LetGoNextPiece
  rw [h]

lemma LetGoNextPiece_fallerPos (gb : GameBoard) :
    (gb.LetGoNextPiece).fallerPos = gb.fallerPos := by
  unfold GameBoard.LetGoNextPiece
  cases h : gb.queue.getLast? <;> rfl

lemma Tick_dropping_dead (gb : GameBoard) (h1 : gb.status = .PieceDropping)
    (h2 : gb.topOfStack = 0) :
    gb.Tick = { gb with dead := true, lastStateChange := { changeType := .Lost } } := by
  unfold GameBoard.Tick
  simp [h1, h2]

lemma Tick_dropping_step (gb : GameBoard) (h1 : gb.status = .PieceDropping)
    (h2 : gb.topOfStack ≠ 0) (h3 : gb.fallerPos ≠ -1) :
    gb.Tick = tickFall ({ gb with fallerPos := gb.fallerPos + 1 }) gb.topOfStack := by
  unfold GameBoard.Tick
  simp [h1, h2, h3]

lemma Tick_dropping_release (gb : GameBoard) (h1 : gb.status = .PieceDropping)
    (h2 : gb.topOfStack ≠ 0) (h3 : gb.fallerPos = -1) :
    gb.Tick = tickFall ({ gb.LetGoNextPiece with fallerPos := 0 }) gb.topOfStack := by
  unfold GameBoard.Tick
  simp [h1, h2, h3, LetGoNextPiece_fallerPos]

lemma Tick_about_drain (gb : GameBoard) (h1 : gb.status ≠ .PieceDropping)
    (h2 : gb.oppqueueReady = true) (h3 : gb.oppQueue ≠ []) :
    gb.Tick =
      (if (gb.addOppQueue).1.dead = true
       then { (gb.addOppQueue).1 with oppqueueReady := false, lastStateChange := { changeType := .Lost } }
       else { (gb.addOppQueue).1 with oppqueueReady := false, timer := some TickDuration, lastStateChange := { changeType := .StackRise, payloadNum := ((gb.addOppQueue).2 : Int) } }) := by
  unfold GameBoard.Tick
  rw [if_neg h1]
  rw [if_pos ⟨h2, h3⟩]

lemma Tick_about_idle (gb : GameBoard) (h1 : gb.status ≠ .PieceDropping)
    (h2 : ¬(gb.oppqueueReady = true ∧ gb.oppQueue ≠ [])) (h3 : gb.queue = []) :
    gb.Tick = { gb with status := .PlayerQueueEmpty, timer := some TickDuration } := by
  unfold GameBoard.Tick
  rw [if_neg h1, if_neg h2, if_pos h3]

lemma Tick_about_dead (gb : GameBoard) (h1 : gb.status ≠ .PieceDropping)
    (h2 : ¬(gb.oppqueueReady = true ∧ gb.oppQueue ≠ [])) (h3 : gb.queue ≠ [])
    (h4 : gb.topOfStack = 0) :
    gb.Tick = { gb with dead := true, lastStateChange := { changeType := .Lost } } := by
  unfold GameBoard.Tick
  rw [if_neg h1, if_neg h2, if_neg h3, if_pos h4]

lemma Tick_about_release (gb : GameBoard) (h1 : gb.status ≠ .PieceDropping)
    (h2 : ¬(gb.oppqueueReady = true ∧ gb.oppQueue ≠ [])) (h3 : gb.queue ≠ [])
    (h4 : gb.topOfStack ≠ 0) :
    gb.Tick = tickFall ({ gb.LetGoNextPiece with fallerPos := 0 }) gb.topOfStack := by
  unfold GameBoard.Tick
  rw [if_neg h1, if_neg h2, if_neg h3, if_neg h4]

lemma tickFall_land (gb : GameBoard) (t : Nat) (h : gb.fallerPos = (t : Int) - 1) :
    tickFall gb t =
      { gb with lastStateChange := { changeType := .PieceLand, payloadNum := gb.fallerPos, payloadNum2 := gb.fallerPos - 1 },
                slots := if 0 < gb.fallerPos
                  then swapSlots gb.slots (gb.fallerPos - 1).toNat gb.fallerPos.toNat
                  else gb.slots,
                fallerPos := -1, status := .PieceAboutToDrop,
                timer := some (if gb.fallerPos = 0 then TickDuration else TickDuration / 4) } := by
  unfold tickFall
  rw [if_pos h]
  by_cases hp : 0 < gb.fallerPos
  · simp [hp]
  · simp [hp]

lemma tickFall_dead (gb : GameBoard) (t : Nat) (h1 : gb.fallerPos ≠ (t : Int) - 1)
    (h2 : gb.fallerPos = 0 ∧ t = 0) :
    tickFall gb t = { gb with dead := true, lastStateChange := { changeType := .Lost } } := by
  unfold tickFall
  rw [if_neg h1, if_pos h2]

lemma tickFall_fall (gb : GameBoard) (t : Nat) (h1 : gb.fallerPos ≠ (t : Int) - 1)
    (h2 : ¬(gb.fallerPos = 0 ∧ t = 0)) :
    tickFall gb t =
      { gb with slots := if 0 < gb.fallerPos
                  then swapSlots gb.slots (gb.fallerPos - 1).toNat gb.fallerPos.toNat
                  else gb.slots,
                lastStateChange := { changeType := .PieceFall, payloadNum := gb.fallerPos, payloadNum2 := gb.fallerPos - 1 },
                status := .PieceDropping, timer := some TickDuration } := by
  unfold tickFall
  rw [if_neg h1, if_neg h2]
  by_cases hp : 0 < gb.fallerPos
  · simp [hp]
  · simp [hp]

/-! ### Multiset bookkeeping for questions in slots -/

/-- The questions occupying the slot array, in slot order. -/
def slotList (s : Nat → Option Question) : List Question :=
  (List.range NumSlots).filterMap s

/-- The multiset of questions occupying the slot array. -/
def slotsMS (s : Nat → Option Question) : Multiset Question :=
  (slotList s : Multiset Question)

/-- Number of occupied slots. -/
def occCnt (s : Nat → Option Question) : Nat := (slotList s).length

lemma filterMap_cons_option (f : Nat → Option Question) (a : Nat) (l : List Nat) :
    List.filterMap f (a :: l) = (f a).toList ++ List.filterMap f l := by
  cases h : f a <;> simp [List.filterMap_cons, h]

lemma filterMapMS_update (s : Nat → Option Question) (i : Nat) (v : Option Question) :
    ∀ L : List Nat, L.Nodup → i ∈ L →
      ((L.filterMap (Function.update s i v) : List Question) : Multiset Question) +
        ((s i).toList : Multiset Question) =
      ((v.toList : List Question) : Multiset Question) +
        ((L.filterMap s : List Question) : Multiset Question) := by
  intro L
  induction L with
  | nil => intro _ hi; exact absurd hi (by simp)
  | cons j rest ih =>
    intro hnd hi
    have hnd' : rest.Nodup := (List.nodup_cons.mp hnd).2
    have hjr : j ∉ rest := (List.nodup_cons.mp hnd).1
    rw [filterMap_cons_option, filterMap_cons_option]
    rcases List.mem_cons.mp hi with rfl | hi'
    · have hrest : rest.filterMap (Function.update s i v) = rest.filterMap s := by
        apply List.filterMap_congr
        intro x hx
        have : x ≠ i := fun he => hjr (he ▸ hx)
        exact Function.update_noteq this v s
      rw [Function.update_same, hrest]
      rw [← Multiset.coe_add, ← Multiset.coe_add]
      abel
    · have hji : (Function.update s i v) j = s j := by
        have : j ≠ i := fun he => (by rw [he] at hjr; exact hjr hi')
        exact Function.update_noteq this v s
      rw [hji]
      have := ih hnd' hi'
      push_cast at this ⊢
      calc ((s j).toList : Multiset Question) + (rest.filterMap (Function.update s i v) : List Question) + ((s i).toList : Multiset Question)
          = ((s j).toList : Multiset Question) + ((rest.filterMap (Function.update s i v) : List Question) + ((s i).toList : Multiset Question)) := by abel
        _ = ((s j).toList : Multiset Question) + ((v.toList : List Question) + (rest.filterMap s : List Question)) := by rw [this]
        _ = (v.toList : List Question) + ((s j).toList + (rest.filterMap s : List Question)) := by abel

lemma swapSlots_self (s : Nat → Option Question) (i : Nat) : swapSlots s i i = s := by
  unfold swapSlots
  funext k
  by_cases h : k = i
  · subst h; simp
  · simp [Function.update_noteq h]

lemma filterMapMS_swap (s : Nat → Option Question) (i j : Nat) (L : List Nat)
    (hnd : L.Nodup) (hi : i ∈ L) (hj : j ∈ L) :
    ((L.filterMap (swapSlots s i j) : List Question) : Multiset Question) =
      ((L.filterMap s : List Question) : Multiset Question) := by
  by_cases hij : i = j
  · subst hij; rw [swapSlots_self]
  · have hAj : (Function.update s i (s j)) j = s j :=
      Function.update_noteq (fun he => hij he.symm) (s j) s
    have eq1 := filterMapMS_update s i (s j) L hnd hi
    have eq2 := filterMapMS_update (Function.update s i (s j)) j (s i) L hnd hj
    rw [hAj] at eq2
    unfold swapSlots
    have h3 : ((L.filterMap (Function.update (Function.update s i (s j)) j (s i)) : List Question) : Multiset Question)
          + ((s j).toList : Multiset Question) + ((s i).toList : Multiset Question)
        = ((L.filterMap s : List Question) : Multiset Question)
          + ((s j).toList : Multiset Question) + ((s i).toList : Multiset Question) := by
      calc ((L.filterMap (Function.update (Function.update s i (s j)) j (s i)) : List Question) : Multiset Question)
            + ((s j).toList : Multiset Question) + ((s i).toList : Multiset Question)
          = (((s i).toList : Multiset Question) + ((L.filterMap (Function.update s i (s j)) : List Question) : Multiset Question)) + ((s i).toList : Multiset Question) := by rw [eq2]
        _ = (((L.filterMap (Function.update s i (s j)) : List Question) : Multiset Question) + ((s i).toList : Multiset Question)) + ((s i).toList : Multiset Question) := by abel
        _ = (((s j).toList : Multiset Question) + ((L.filterMap s : List Question) : Multiset Question)) + ((s i).toList : Multiset Question) := by rw [eq1]
        _ = ((L.filterMap s : List Question) : Multiset Question) + ((s j).toList : Multiset Question) + ((s i).toList : Multiset Question) := by abel
    exact add_right_cancel (add_right_cancel h3)

/-! ### addOppQueue characterization -/

lemma shiftUpAux_apply (s : Nat → Option Question) :
    ∀ (n : Nat) (k : Nat),
      ((List.range' 1 n).foldl (fun s i => swapSlots s i (i - 1)) s) k =
        if k < n then s (k + 1) else if k = n then s 0 else s k := by
  intro n
  induction n with
  | zero =>
    intro k
    by_cases h : k = 0 <;> simp [List.range', h]
  | succ n ih =>
    intro k
    have hcat : List.range' 1 (n + 1) = List.range' 1 n ++ [n + 1] := by
      have h := @List.range'_concat 1 1 n
      simp only [Nat.one_mul] at h
      rw [h, Nat.add_comm 1 n]
    rw [hcat, List.foldl_append]
    simp only [List.foldl_cons, List.foldl_nil]
    rw [show (n + 1) - 1 = n from rfl]
    rw [swapSlots_apply]
    simp only [ih]
    split_ifs <;> first | rfl | (congr 1; omega)

lemma shiftUpLoop_apply (s : Nat → Option Question) (k : Nat) :
    shiftUpLoop s k =
      if k < NumSlots - 1 then s (k + 1)
      else if k = NumSlots - 1 then s 0 else s k := by
  unfold shiftUpLoop
  exact shiftUpAux_apply s (NumSlots - 1) k

lemma oppStep_apply (s : Nat → Option Question) (q : Question) (k : Nat) :
    Function.update (shiftUpLoop s) (NumSlots - 1) (some q) k =
      if k = NumSlots - 1 then some q
      else if k < NumSlots - 1 then s (k + 1) else s k := by
  rw [Function.update_apply]
  by_cases h : k = NumSlots - 1
  · rw [if_pos h, if_pos h]
  · rw [if_neg h, if_neg h, shiftUpLoop_apply]
    by_cases h2 : k < NumSlots - 1
    · rw [if_pos h2, if_pos h2]
    · rw [if_neg h2, if_neg h, if_neg h2]

lemma contigFrom1_oppStep (s : Nat → Option Question) (q : Question)
    (hc : contigFrom1 s (-1)) :
    contigFrom1 (Function.update (shiftUpLoop s) (NumSlots - 1) (some q)) (-1) := by
  intro i hi hi1 hocc j hj hij
  left
  rw [oppStep_apply]
  by_cases hj15 : j = NumSlots - 1
  · rw [if_pos hj15]; simp
  · rw [if_neg hj15, if_pos (by have : NumSlots = 16 := rfl; omega)]
    rcases hocc with ⟨hoccv, _⟩
    rw [oppStep_apply] at hoccv
    have hi15 : i ≠ NumSlots - 1 := by have : NumSlots = 16 := rfl; omega
    rw [if_neg hi15, if_pos (by have : NumSlots = 16 := rfl; omega)] at hoccv
    have := hc (i + 1) (by have : NumSlots = 16 := rfl; omega) (by omega)
      ⟨hoccv, by omega⟩ (j + 1) (by have : NumSlots = 16 := rfl; omega) (by omega)
    rcases this with h | h
    · exact h
    · exact absurd h (by omega)

lemma addOppQueueGo_contig1 :
    ∀ (Q : List Question) (s : Nat → Option Question) (dead : Bool),
      contigFrom1 s (-1) → contigFrom1 (addOppQueueGo s dead Q).1 (-1) := by
  intro Q
  induction Q with
  | nil => intro s dead hc; exact hc
  | cons q rest ih =>
    intro s dead hc
    unfold addOppQueueGo
    exact ih _ _ (contigFrom1_oppStep s q hc)

lemma slotsMS_foldl_swap :
    ∀ (L : List Nat) (s : Nat → Option Question), (∀ i ∈ L, i < NumSlots ∧ i - 1 < NumSlots) →
      slotsMS (L.foldl (fun s i => swapSlots s i (i - 1)) s) = slotsMS s := by
  intro L
  induction L with
  | nil => intro s _; rfl
  | cons a rest ih =>
    intro s hmem
    rw [List.foldl_cons]
    rw [ih (swapSlots s a (a - 1)) (fun i hi => hmem i (List.mem_cons_of_mem a hi))]
    unfold slotsMS slotList
    exact filterMapMS_swap s a (a - 1) (List.range NumSlots) (List.nodup_range NumSlots)
      (List.mem_range.mpr (hmem a (List.mem_cons_self a rest)).1)
      (List.mem_range.mpr (hmem a (List.mem_cons_self a rest)).2)

lemma slotsMS_shiftUpLoop (s : Nat → Option Question) :
    slotsMS (shiftUpLoop s) = slotsMS s := by
  unfold shiftUpLoop
  apply slotsMS_foldl_swap
  intro i hi
  have h16 : NumSlots = 16 := rfl
  have := List.mem_range'.mp hi
  omega

lemma length_filterMap_all_some (s : Nat → Option Question) :
    ∀ L : List Nat, (∀ k ∈ L, (s k).isSome) → (L.filterMap s).length = L.length := by
  intro L
  induction L with
  | nil => intro _; rfl
  | cons a rest ih =>
    intro h
    have ha := h a (List.mem_cons_self a rest)
    rcases Option.isSome_iff_exists.mp ha with ⟨q, hq⟩
    rw [filterMap_cons_option, hq]
    have hr := ih (fun k hk => h k (List.mem_cons_of_mem a hk))
    simp [hr]

lemma contigAll_full (s : Nat → Option Question) (hc : contigAll s (-1))
    (h0 : s 0 ≠ none) : ∀ k, k < NumSlots → s k ≠ none := by
  intro k hk
  rcases Nat.eq_zero_or_pos k with rfl | hpos
  · exact h0
  · rcases hc 0 (by have : NumSlots = 16 := rfl; omega) ⟨h0, by simp⟩ k hk (by omega) with h | h
    · exact h
    · exact absurd h (by simp)

lemma occCnt_eq_NumSlots (s : Nat → Option Question) (hall : ∀ k, k < NumSlots → s k ≠ none) :
    occCnt s = NumSlots := by
  unfold occCnt slotList
  rw [length_filterMap_all_some s (List.range NumSlots)
      (fun k hk => Option.isSome_iff_ne_none.mpr (hall k (List.mem_range.mp hk)))]
  exact List.length_range NumSlots

lemma contigAll_oppStep (s : Nat → Option Question) (q : Question)
    (hc : contigAll s (-1)) :
    contigAll (Function.update (shiftUpLoop s) (NumSlots - 1) (some q)) (-1) := by
  intro i hi hocc j hj hij
  left
  rw [oppStep_apply]
  by_cases hj15 : j = NumSlots - 1
  · rw [if_pos hj15]; simp
  · rw [if_neg hj15, if_pos (by have : NumSlots = 16 := rfl; omega)]
    rcases hocc with ⟨hoccv, _⟩
    rw [oppStep_apply] at hoccv
    have hi15 : i ≠ NumSlots - 1 := by have : NumSlots = 16 := rfl; omega
    rw [if_neg hi15, if_pos (by have : NumSlots = 16 := rfl; omega)] at hoccv
    have := hc (i + 1) (by have : NumSlots = 16 := rfl; omega)
      ⟨hoccv, by omega⟩ (j + 1) (by have : NumSlots = 16 := rfl; omega) (by omega)
    rcases this with h | h
    · exact h
    · exact absurd h (by omega)

lemma slotsMS_oppStep (s : Nat → Option Question) (q : Question) (h0 : s 0 = none) :
    slotsMS (Function.update (shiftUpLoop s) (NumSlots - 1) (some q)) =
      slotsMS s + {q} := by
  have h15 : shiftUpLoop s (NumSlots - 1) = s 0 := by
    rw [shiftUpLoop_apply, if_neg (by omega), if_pos rfl]
  have h := filterMapMS_update (shiftUpLoop s) (NumSlots - 1) (some q) (List.range NumSlots)
    (List.nodup_range NumSlots) (List.mem_range.mpr (by have h16 : NumSlots = 16 := rfl; omega))
  rw [h15, h0] at h
  have hshift : slotsMS (shiftUpLoop s) = slotsMS s := slotsMS_shiftUpLoop s
  unfold slotsMS slotList at hshift ⊢
  rw [hshift] at h
  simp only [Option.toList_none, Option.toList_some, Multiset.coe_nil, add_zero,
    Multiset.coe_singleton] at h
  rw [h, add_comm]

lemma occCnt_oppStep (s : Nat → Option Question) (q : Question) (h0 : s 0 = none) :
    occCnt (Function.update (shiftUpLoop s) (NumSlots - 1) (some q)) = occCnt s + 1 := by
  have h := congrArg Multiset.card (slotsMS_oppStep s q h0)
  unfold slotsMS slotList at h
  simp only [Multiset.coe_card, Multiset.card_add, Multiset.card_singleton] at h
  unfold occCnt slotList
  exact h

lemma addOppQueueGo_conserve :
    ∀ (Q : List Question) (s : Nat → Option Question) (dead : Bool),
      contigAll s (-1) → occCnt s + Q.length ≤ NumSlots →
      slotsMS (addOppQueueGo s dead Q).1 = slotsMS s + (Q : Multiset Question) ∧
      (addOppQueueGo s dead Q).2.1 = dead ∧
      (addOppQueueGo s dead Q).2.2 = Q.length ∧
      contigAll (addOppQueueGo s dead Q).1 (-1) := by
  intro Q
  induction Q with
  | nil =>
    intro s dead hc _
    refine ⟨by simp [addOppQueueGo], rfl, rfl, hc⟩
  | cons q rest ih =>
    intro s dead hc hlen
    have h16 : NumSlots = 16 := rfl
    have h0 : s 0 = none := by
      by_contra h0
      have := occCnt_eq_NumSlots s (contigAll_full s hc h0)
      simp only [List.length_cons] at hlen
      omega
    have hstep := slotsMS_oppStep s q h0
    have hcnt := occCnt_oppStep s q h0
    have hc' := contigAll_oppStep s q hc
    have hdead : (if ((Function.update (shiftUpLoop s) (NumSlots - 1) (some q)) 0).isSome ∧
        rest ≠ [] then true else dead) = dead := by
      by_cases hrne : rest = []
      · rw [if_neg (by simp [hrne])]
      · by_cases hocc : ((Function.update (shiftUpLoop s) (NumSlots - 1) (some q)) 0).isSome
        · exfalso
          have hfull := occCnt_eq_NumSlots _
            (contigAll_full _ hc' (Option.isSome_iff_ne_none.mp hocc))
          have hrl : rest.length ≠ 0 := fun h => hrne (List.length_eq_zero.mp h)
          rw [hcnt] at hfull
          rw [h16] at hfull
          simp only [List.length_cons, h16] at hlen
          omega
        · rw [if_neg (fun hcon => hocc hcon.1)]
    have hrest := ih (Function.update (shiftUpLoop s) (NumSlots - 1) (some q)) dead hc'
      (by simp only [List.length_cons] at hlen; omega)
    unfold addOppQueueGo
    dsimp only
    rw [hdead]
    refine ⟨?_, hrest.2.1, ?_, hrest.2.2.2⟩
    · rw [hrest.1, hstep]
      have hcoe : ((q :: rest : List Question) : Multiset Question) =
          {q} + (rest : Multiset Question) := by
        simp [Multiset.singleton_add]
      rw [hcoe]
      abel
    · rw [hrest.2.2.1]
      simp

/-! ### shiftDownLoop characterization -/

/-- The index at which the downward shift loop (game.go:644-648) stops:
the first index, counting down, that is 0, empty, or the faller. -/
def stopIdx (f : Int) (slots : Nat → Option Question) : Nat → Nat
  | 0 => 0
  | l + 1 =>
    if (slots (l + 1)).isSome ∧ ((l + 1 : Int) ≠ f) then stopIdx f slots l else l + 1

lemma stopIdx_le (f : Int) (slots : Nat → Option Question) :
    ∀ l, stopIdx f slots l ≤ l := by
  intro l
  induction l with
  | zero => exact le_refl 0
  | succ l ih =>
    unfold stopIdx
    split
    · omega
    · omega

lemma stopIdx_congr (f : Int) :
    ∀ (l : Nat) (s1 s2 : Nat → Option Question), (∀ k, 1 ≤ k → k ≤ l → s1 k = s2 k) →
      stopIdx f s1 l = stopIdx f s2 l := by
  intro l
  induction l with
  | zero => intro s1 s2 _; rfl
  | succ l ih =>
    intro s1 s2 h
    unfold stopIdx
    rw [h (l + 1) (by omega) (by omega)]
    rw [ih s1 s2 (fun k hk1 hk2 => h k hk1 (by omega))]

lemma stopIdx_stop (f : Int) (slots : Nat → Option Question) :
    ∀ l, stopIdx f slots l = 0 ∨
      (slots (stopIdx f slots l) = none ∨ ((stopIdx f slots l : Int) = f)) := by
  intro l
  induction l with
  | zero => exact Or.inl rfl
  | succ l ih =>
    unfold stopIdx
    split
    · exact ih
    · next h =>
      right
      rcases not_and_or.mp h with h' | h'
      · exact Or.inl (Option.not_isSome_iff_eq_none.mp h')
      · exact Or.inr (not_not.mp h')

lemma stopIdx_run (f : Int) (slots : Nat → Option Question) :
    ∀ l i, stopIdx f slots l < i → i ≤ l → (slots i ≠ none ∧ (i : Int) ≠ f) := by
  intro l
  induction l with
  | zero => intro i h1 h2; omega
  | succ l ih =>
    intro i h1 h2
    unfold stopIdx at h1
    by_cases hc : (slots (l + 1)).isSome ∧ ((l + 1 : Int) ≠ f)
    · rw [if_pos hc] at h1
      rcases Nat.eq_or_lt_of_le h2 with rfl | hlt
      · exact ⟨Option.isSome_iff_ne_none.mp hc.1, hc.2⟩
      · exact ih i h1 (by omega)
    · rw [if_neg hc] at h1
      omega

lemma shiftDownLoop_apply (f : Int) :
    ∀ (l : Nat) (slots : Nat → Option Question) (k : Nat),
      shiftDownLoop f slots l k =
        if stopIdx f slots l < k ∧ k ≤ l + 1 then
          (if k = stopIdx f slots l + 1 then slots (l + 1) else slots (k - 1))
        else slots k := by
  intro l
  induction l with
  | zero =>
    intro slots k
    unfold shiftDownLoop stopIdx
    split_ifs <;> first | rfl | (exact congrArg slots (by omega)) | (exfalso; omega)
  | succ l ih =>
    intro slots k
    by_cases hc : (slots (l + 1)).isSome ∧ ((l + 1 : Int) ≠ f)
    · have hstep : shiftDownLoop f slots (l + 1) =
          shiftDownLoop f (swapSlots slots (l + 1) (l + 2)) l := by
        have he : shiftDownLoop f slots (l + 1) =
            if (slots (l + 1)).isSome ∧ ((l + 1 : Int) ≠ f) then
              shiftDownLoop f (swapSlots slots (l + 1) (l + 2)) l
            else slots := rfl
        rw [he, if_pos hc]
      have hm : stopIdx f (swapSlots slots (l + 1) (l + 2)) l = stopIdx f slots l := by
        apply stopIdx_congr
        intro x hx1 hx2
        rw [swapSlots_apply, if_neg (by omega), if_neg (by omega)]
      have hm2 : stopIdx f slots (l + 1) = stopIdx f slots l := by
        have he : stopIdx f slots (l + 1) =
            if (slots (l + 1)).isSome ∧ ((l + 1 : Int) ≠ f) then stopIdx f slots l
            else l + 1 := rfl
        rw [he, if_pos hc]
      rw [hstep, ih (swapSlots slots (l + 1) (l + 2)) k, hm, hm2]
      have hle := stopIdx_le f slots l
      simp only [swapSlots_apply]
      split_ifs <;> first | rfl | (exact congrArg slots (by omega)) | (exfalso; omega)
    · have hstep : shiftDownLoop f slots (l + 1) = slots := by
        have he : shiftDownLoop f slots (l + 1) =
            if (slots (l + 1)).isSome ∧ ((l + 1 : Int) ≠ f) then
              shiftDownLoop f (swapSlots slots (l + 1) (l + 2)) l
            else slots := rfl
        rw [he, if_neg hc]
      have hm2 : stopIdx f slots (l + 1) = l + 1 := by
        have he : stopIdx f slots (l + 1) =
            if (slots (l + 1)).isSome ∧ ((l + 1 : Int) ≠ f) then stopIdx f slots l
            else l + 1 := rfl
        rw [he, if_neg hc]
      rw [hstep, hm2]
      split_ifs <;> first | rfl | (exact congrArg slots (by omega)) | (exfalso; omega)

/-! ### Invariant preservation: core slot lemmas -/

lemma topOfStackOf_congr (s1 s2 : Nat → Option Question) (f1 f2 : Int)
    (h : ∀ k, k < NumSlots → (occNF s1 f1 k ↔ occNF s2 f2 k)) :
    topOfStackOf s1 f1 = topOfStackOf s2 f2 := by
  apply le_antisymm
  · rcases Nat.lt_or_ge (topOfStackOf s2 f2) NumSlots with h2 | h2
    · have hocc := topOfStackOf_occ s2 f2 h2
      have := (h _ h2).mpr ⟨hocc.1, hocc.2⟩
      exact topOfStackOf_le_of_occ s1 f1 _ h2 this.1 this.2
    · exact le_trans (topOfStackOf_le s1 f1) h2
  · rcases Nat.lt_or_ge (topOfStackOf s1 f1) NumSlots with h1 | h1
    · have hocc := topOfStackOf_occ s1 f1 h1
      have := (h _ h1).mp ⟨hocc.1, hocc.2⟩
      exact topOfStackOf_le_of_occ s2 f2 _ h1 this.1 this.2
    · exact le_trans (topOfStackOf_le s2 f2) h1

lemma contig1_ge1_congr (s s' : Nat → Option Question) (f f' : Int)
    (hss : ∀ k, 1 ≤ k → k < NumSlots → s' k = s k) (hf : f ≤ 0) (hf' : f' ≤ 0)
    (hc : contigFrom1 s f) : contigFrom1 s' f' := by
  intro i hi hi1 hocc j hj hij
  have hocc' : occNF s f i := by
    rcases hocc with ⟨h1, _⟩
    rw [hss i hi1 hi] at h1
    exact ⟨h1, by omega⟩
  rcases hc i hi hi1 hocc' j hj hij with h | h
  · left; rw [hss j (by omega) hj]; exact h
  · exfalso; omega

/-- After a landing swap `slots[a] ↔ slots[t-1]` of the faller at `a` onto the
stack top `t` (with the faller cleared), contiguity on `[1, 16)` holds. -/
lemma contig1_swap_land (s : Nat → Option Question) (f : Int) (a : Nat)
    (hcontig : contigFrom1 s f) (hav : (a : Int) = f)
    (ht2 : a + 2 ≤ topOfStackOf s f) (ht16 : topOfStackOf s f ≤ NumSlots) :
    contigFrom1 (swapSlots s a (topOfStackOf s f - 1)) (-1) := by
  set t := topOfStackOf s f with htdef
  have habove : ∀ k, k < t → k ≠ a → s k = none := by
    intro k hk hka
    rcases topOfStackOf_min s f k hk (by omega) with h | h
    · exact h
    · exact absurd h (fun he => hka (by omega))
  intro i hi hi1 hocc j hj hij
  rcases hocc with ⟨hov, _⟩
  rw [swapSlots_apply] at hov
  left
  rw [swapSlots_apply]
  have hja : j ≠ a := by
    intro hje
    have hia : i ≠ a := by omega
    have hit1 : i ≠ t - 1 := by omega
    rw [if_neg hit1, if_neg hia] at hov
    exact hov (habove i (by omega) hia)
  by_cases hjt : j = t - 1
  · exfalso
    by_cases hia : i = a
    · rw [if_neg (by omega), if_pos hia] at hov
      exact hov (habove (t - 1) (by omega) (by omega))
    · rw [if_neg (by omega : ¬ i = t - 1), if_neg hia] at hov
      exact hov (habove i (by omega) hia)
  · rw [if_neg hjt, if_neg hja]
    by_cases hia : i = a
    · exfalso
      rw [if_neg (by omega : ¬ i = t - 1), if_pos hia] at hov
      exact hov (habove (t - 1) (by omega) (by omega))
    · by_cases hit1 : i = t - 1
      · have hjget : t ≤ j := by omega
        rcases Nat.eq_or_lt_of_le hjget with rfl | hjgt
        · exact (topOfStackOf_occ s f (by omega)).1
        · have hocct := topOfStackOf_occ s f (by omega)
          rcases hcontig t (by omega) (by omega) ⟨hocct.1, hocct.2⟩ j hj (by omega)
            with h | h
          · exact h
          · exact absurd h (by omega)
      · rw [if_neg hit1, if_neg hia] at hov
        have hitge : t ≤ i := by
          by_contra hlt
          exact hov (habove i (by omega) hia)
        rcases hcontig i hi hi1 ⟨hov, by omega⟩ j hj hij with h | h
        · exact h
        · exact absurd h (by omega)

lemma contig1_occ_congr (s s' : Nat → Option Question) (f : Int)
    (h : ∀ k, k < NumSlots → (s' k ≠ none ↔ s k ≠ none)) (hc : contigFrom1 s f) :
    contigFrom1 s' f := by
  intro i hi hi1 hocc j hj hij
  rcases hocc with ⟨h1, h2⟩
  rcases hc i hi hi1 ⟨(h i hi).mp h1, h2⟩ j hj hij with h' | h'
  · exact Or.inl ((h j hj).mpr h')
  · exact Or.inr h'

lemma occNF_congr_of_occ (s s' : Nat → Option Question) (f : Int)
    (h : ∀ k, k < NumSlots → (s' k ≠ none ↔ s k ≠ none)) :
    ∀ k, k < NumSlots → (occNF s' f k ↔ occNF s f k) := by
  intro k hk
  unfold occNF
  rw [h k hk]

/-- The swap of the still-falling piece one slot down keeps contiguity,
with the faller now at `a + 1`. -/
lemma contig1_swap_fall (s : Nat → Option Question) (f : Int) (a : Nat)
    (hcontig : contigFrom1 s f) (hav : (a : Int) = f)
    (ht3 : a + 3 ≤ topOfStackOf s f) (ht16 : topOfStackOf s f ≤ NumSlots) :
    contigFrom1 (swapSlots s a (a + 1)) ((a : Int) + 1) := by
  set t := topOfStackOf s f with htdef
  have habove : ∀ k, k < t → k ≠ a → s k = none := by
    intro k hk hka
    rcases topOfStackOf_min s f k hk (by omega) with h | h
    · exact h
    · exact absurd h (fun he => hka (by omega))
  intro i hi hi1 hocc j hj hij
  rcases hocc with ⟨hov, hifa⟩
  rw [swapSlots_apply] at hov
  by_cases hia1 : i = a + 1
  · exact absurd (by omega : (i : Int) = (a : Int) + 1) hifa
  · by_cases hia : i = a
    · exfalso
      rw [if_neg hia1, if_pos hia] at hov
      exact hov (habove (a + 1) (by omega) (by omega))
    · rw [if_neg hia1, if_neg hia] at hov
      have hitge : t ≤ i := by
        by_contra hlt
        exact hov (habove i (by omega) hia)
      rw [swapSlots_apply]
      rw [if_neg (by omega : ¬ j = a + 1), if_neg (by omega : ¬ j = a)]
      rcases hcontig i hi hi1 ⟨hov, by omega⟩ j hj hij with h | h
      · exact Or.inl h
      · exact absurd h (by omega)

lemma tos_swap_fall (s : Nat → Option Question) (f : Int) (a : Nat)
    (hav : (a : Int) = f) (ht2 : a + 2 ≤ topOfStackOf s f)
    (ht16 : topOfStackOf s f ≤ NumSlots) :
    topOfStackOf (swapSlots s a (a + 1)) ((a : Int) + 1) = topOfStackOf s f := by
  have habove : ∀ k, k < topOfStackOf s f → k ≠ a → s k = none := by
    intro k hk hka
    rcases topOfStackOf_min s f k hk (by omega) with h | h
    · exact h
    · exact absurd h (fun he => hka (by omega))
  apply topOfStackOf_congr
  intro k hk
  unfold occNF
  rw [swapSlots_apply]
  by_cases hk1 : k = a + 1
  · rw [if_pos hk1]
    constructor
    · rintro ⟨_, h2⟩; exact absurd (by omega : (k : Int) = (a : Int) + 1) h2
    · rintro ⟨h1, h2⟩
      rw [hk1] at h1
      exact absurd (habove (a + 1) (by omega) (by omega)) h1
  · by_cases hka : k = a
    · rw [if_neg hk1, if_pos hka]
      constructor
      · rintro ⟨h1, _⟩
        exact absurd (habove (a + 1) (by omega) (by omega)) h1
      · rintro ⟨_, h2⟩
        exact absurd (by omega : (k : Int) = f) h2
    · rw [if_neg hk1, if_neg hka]
      constructor
      · rintro ⟨h1, _⟩
        exact ⟨h1, by omega⟩
      · rintro ⟨h1, _⟩
        exact ⟨h1, by omega⟩

lemma contig1_faller_clear (s : Nat → Option Question) (f : Int) (i : Nat)
    (hcontig : contigFrom1 s f) (hif : (i : Int) = f)
    (ht2 : (i : Nat) + 2 ≤ topOfStackOf s f) :
    contigFrom1 (Function.update s i none) (-1) := by
  intro i' hi' hi'1 hocc j hj hij
  rcases hocc with ⟨hov, _⟩
  rw [Function.update_apply] at hov
  by_cases hii : i' = i
  · rw [if_pos hii] at hov
    exact absurd rfl hov
  · rw [if_neg hii] at hov
    have hige : topOfStackOf s f ≤ i' :=
      topOfStackOf_le_of_occ s f i' hi' hov (by omega)
    rcases hcontig i' hi' hi'1 ⟨hov, by omega⟩ j hj hij with h | h
    · left
      rw [Function.update_apply, if_neg (by omega : ¬ j = i)]
      exact h
    · exfalso
      omega

lemma tos_update_answer (s : Nat → Option Question) (f : Int) (i : Nat) (q q' : Question)
    (hs : s i = some q) :
    topOfStackOf (Function.update s i (some q')) f = topOfStackOf s f := by
  apply topOfStackOf_congr
  apply occNF_congr_of_occ
  intro k hk
  rw [Function.update_apply]
  by_cases hki : k = i
  · rw [if_pos hki, hki, hs]; simp
  · rw [if_neg hki]

lemma contig1_update0 (s : Nat → Option Question) (f : Int) (v : Option Question)
    (hc : contigFrom1 s f) : contigFrom1 (Function.update s 0 v) f := by
  intro i hi hi1 hocc j hj hij
  rcases hocc with ⟨hov, hif⟩
  rw [Function.update_apply, if_neg (by omega : ¬ i = 0)] at hov
  rcases hc i hi hi1 ⟨hov, hif⟩ j hj hij with h | h
  · left
    rw [Function.update_apply, if_neg (by omega : ¬ j = 0)]
    exact h
  · exact Or.inr h

lemma contig1_solve_shift (s : Nat → Option Question) (f : Int) (i : Nat)
    (hcontig : contigFrom1 s f)
    (hA3 : f ≠ -1 → f + 2 ≤ (topOfStackOf s f : Int))
    (hi16 : i < NumSlots)
    (hif : (i : Int) ≠ f) :
    contigFrom1 (shiftDownLoop f (Function.update s i none) (i - 1)) f := by
  rcases Nat.eq_zero_or_pos i with rfl | hi1pos
  · exact contig1_update0 s f none hcontig
  have hii : i - 1 + 1 = i := by omega
  have hform : ∀ k, shiftDownLoop f (Function.update s i none) (i - 1) k =
      if stopIdx f (Function.update s i none) (i - 1) < k ∧ k ≤ i then
        (if k = stopIdx f (Function.update s i none) (i - 1) + 1
         then Function.update s i none i else Function.update s i none (k - 1))
      else Function.update s i none k := by
    intro k
    rw [shiftDownLoop_apply, hii]
  set m := stopIdx f (Function.update s i none) (i - 1) with hm
  have hml : m ≤ i - 1 := stopIdx_le f _ (i - 1)
  have hrun : ∀ x, m < x → x ≤ i - 1 → s x ≠ none ∧ (x : Int) ≠ f := by
    intro x hx1 hx2
    have := stopIdx_run f (Function.update s i none) (i - 1) x hx1 hx2
    rw [Function.update_apply, if_neg (by omega : ¬ x = i)] at this
    exact this
  intro i' hi' hi'1 hocc j hj hij
  rcases hocc with ⟨hov, hi'f⟩
  rw [hform i'] at hov
  by_cases hin : m < i' ∧ i' ≤ i
  · rw [if_pos hin] at hov
    by_cases hm1 : i' = m + 1
    · rw [if_pos hm1, Function.update_same] at hov
      exact absurd rfl hov
    · rw [if_neg hm1, Function.update_apply, if_neg (by omega : ¬ i' - 1 = i)] at hov
      -- j below i' is either still inside the shifted run or below the cleared slot
      by_cases hjin : j ≤ i
      · left
        rw [hform j, if_pos (by omega), if_neg (by omega : ¬ j = m + 1),
            Function.update_apply, if_neg (by omega : ¬ j - 1 = i)]
        exact (hrun (j - 1) (by omega) (by omega)).1
      · have hold := hcontig (i' - 1) (by omega) (by omega)
          ⟨(hrun (i' - 1) (by omega) (by omega)).1, (hrun (i' - 1) (by omega) (by omega)).2⟩
          j hj (by omega)
        rcases hold with h | h
        · left
          rw [hform j, if_neg (by omega), Function.update_apply,
              if_neg (by omega : ¬ j = i)]
          exact h
        · exact Or.inr h
  · rw [if_neg hin] at hov
    rcases Nat.lt_or_ge i i' with hgt | hge
    · -- i' above the solved slot: untouched
      rw [Function.update_apply, if_neg (by omega : ¬ i' = i)] at hov
      have hold := hcontig i' hi' hi'1 ⟨hov, hi'f⟩ j hj hij
      rcases hold with h | h
      · left
        rw [hform j, if_neg (by omega), Function.update_apply,
            if_neg (by omega : ¬ j = i)]
        exact h
      · exact Or.inr h
    · -- i' ≤ m: impossible
      exfalso
      have hi'm : i' ≤ m := by omega
      rw [Function.update_apply, if_neg (by omega : ¬ i' = i)] at hov
      have htle : topOfStackOf s f ≤ i' :=
        topOfStackOf_le_of_occ s f i' hi' hov hi'f
      rcases stopIdx_stop f (Function.update s i none) (i - 1) with h0 | hmn | hmf
      · omega
      · rw [Function.update_apply, if_neg (by omega : ¬ m = i)] at hmn
        rcases Nat.eq_or_lt_of_le hi'm with rfl | hlt
        · exact hov hmn
        · rcases hcontig i' hi' hi'1 ⟨hov, hi'f⟩ m (by omega) hlt with h | h
          · exact h hmn
          · have hfm : f = (m : Int) := h.symm
            have := hA3 (by omega)
            omega
      · have := hA3 (by omega)
        omega

lemma tos_solve_shift_ge (s : Nat → Option Question) (f : Int) (i : Nat)
    (hi16 : i < NumSlots) :
    topOfStackOf s f ≤ topOfStackOf (shiftDownLoop f (Function.update s i none) (i - 1)) f := by
  rcases Nat.lt_or_ge (topOfStackOf (shiftDownLoop f (Function.update s i none) (i - 1)) f)
    NumSlots with hlt | hge
  swap
  · exact le_trans (topOfStackOf_le s f) hge
  have hocc := topOfStackOf_occ _ f hlt
  set t' := topOfStackOf (shiftDownLoop f (Function.update s i none) (i - 1)) f with ht'
  rcases hocc with ⟨hov, htf⟩
  rcases Nat.eq_zero_or_pos i with rfl | hi1pos
  · have : shiftDownLoop f (Function.update s 0 none) 0 = Function.update s 0 none := rfl
    rw [this, Function.update_apply] at hov
    by_cases h0 : t' = 0
    · rw [if_pos h0] at hov; exact absurd rfl hov
    · rw [if_neg h0] at hov
      exact topOfStackOf_le_of_occ s f t' hlt hov htf
  have hii : i - 1 + 1 = i := by omega
  rw [shiftDownLoop_apply, hii] at hov
  set m := stopIdx f (Function.update s i none) (i - 1) with hm
  have hml : m ≤ i - 1 := stopIdx_le f _ (i - 1)
  have hrun : ∀ x, m < x → x ≤ i - 1 → s x ≠ none ∧ (x : Int) ≠ f := by
    intro x hx1 hx2
    have := stopIdx_run f (Function.update s i none) (i - 1) x hx1 hx2
    rw [Function.update_apply, if_neg (by omega : ¬ x = i)] at this
    exact this
  by_cases hin : m < t' ∧ t' ≤ i
  · rw [if_pos hin] at hov
    by_cases hm1 : t' = m + 1
    · rw [if_pos hm1, Function.update_same] at hov
      exact absurd rfl hov
    · rw [if_neg hm1, Function.update_apply, if_neg (by omega : ¬ t' - 1 = i)] at hov
      have := topOfStackOf_le_of_occ s f (t' - 1) (by omega)
        (hrun (t' - 1) (by omega) (by omega)).1 (hrun (t' - 1) (by omega) (by omega)).2
      omega
  · rw [if_neg hin, Function.update_apply] at hov
    by_cases hti : t' = i
    · rw [if_pos hti] at hov; exact absurd rfl hov
    · rw [if_neg hti] at hov
      exact topOfStackOf_le_of_occ s f t' hlt hov htf

/-! ### Invariant preservation per operation -/

lemma boardInv_newGameBoard (idx : Nat) : BoardInv (newGameBoard idx) := by
  refine ⟨?_, fun _ => rfl, le_refl (-1), fun habs => absurd rfl habs⟩
  intro i hi hi1 hocc j hj hij
  exact absurd rfl hocc.1

theorem addOppQueue_preserves_inv (gb : GameBoard) (h : BoardInv gb)
    (hf : gb.fallerPos = -1) : BoardInv (gb.addOppQueue).1 := by
  obtain ⟨hc, hA2, hfm1, hA3⟩ := h
  rw [hf] at hc
  refine ⟨?_, fun _ => hf, ?_, fun habs => absurd hf habs⟩
  · rw [show gb.addOppQueue.1.slots = (addOppQueueGo gb.slots gb.dead gb.oppQueue).1 from rfl,
        show gb.addOppQueue.1.fallerPos = gb.fallerPos from rfl, hf]
    exact addOppQueueGo_contig1 gb.oppQueue gb.slots gb.dead hc
  · rw [show (GameBoard.addOppQueue gb).1.fallerPos = gb.fallerPos from rfl, hf]

theorem handleGuessEvent_preserves_inv (gb : GameBoard) (g : Word) (h : BoardInv gb) :
    BoardInv (gb.handleGuessEvent g).1 := by
  obtain ⟨hc, hA2, hfm1, hA3⟩ := h
  cases hh : firstHit gb.slots (normalizeGuess g) with
  | none =>
    by_cases hpun : ∃ j ∈ List.range NumSlots,
        (j : Int) = gb.fallerPos ∧ wrongAt gb.slots (normalizeGuess g) j
    · obtain ⟨j, hjr, hjf, hw⟩ := hpun
      have hp := handleGuessEvent_punish gb g j (List.mem_range.mp hjr) hjf hw hh
      by_cases ht : gb.topOfStack = 0
      · rw [hp.1 ht]
        exact ⟨hc, hA2, hfm1, hA3⟩
      · rw [hp.2 ht]
        have hfge : gb.fallerPos ≠ -1 := by omega
        have hA3' := hA3 hfge
        rw [GameBoard.topOfStack_def] at hA3'
        refine ⟨?_, fun _ => rfl, by norm_num, fun habs => absurd rfl habs⟩
        have := contig1_swap_land gb.slots gb.fallerPos j hc hjf (by omega)
          (topOfStackOf_le gb.slots gb.fallerPos)
        rw [GameBoard.topOfStack_def]
        exact this
    · rw [handleGuessEvent_no_hit gb g hh hpun]
      exact ⟨hc, hA2, hfm1, hA3⟩
  | some iq =>
    obtain ⟨i, q⟩ := iq
    obtain ⟨hir, hslot, hmem⟩ :=
      firstHitGo_some_spec gb.slots (normalizeGuess g) (List.range NumSlots) i q hh
    have hi16 : i < NumSlots := List.mem_range.mp hir
    by_cases he : (q.answerMap.erase (normalizeGuess g)).isEmpty = true
    · by_cases hfp : gb.fallerPos = (i : Int)
      · rw [handleGuessEvent_full_faller gb g i q hh he hfp]
        have hfge : gb.fallerPos ≠ -1 := by omega
        have hA3' := hA3 hfge
        rw [GameBoard.topOfStack_def] at hA3'
        refine ⟨?_, fun _ => rfl, by norm_num, fun habs => absurd rfl habs⟩
        exact contig1_faller_clear gb.slots gb.fallerPos i hc hfp.symm (by omega)
      · rw [handleGuessEvent_full_nonfaller gb g i q hh he hfp]
        have hifne : (i : Int) ≠ gb.fallerPos := fun hcon => hfp hcon.symm
        have hcontig' := contig1_solve_shift gb.slots gb.fallerPos i hc
          (fun hne => by rw [← GameBoard.topOfStack_def]; exact hA3 hne) hi16 hifne
        have htge := tos_solve_shift_ge gb.slots gb.fallerPos i hi16
        split
        · refine ⟨hcontig', hA2, hfm1, ?_⟩
          intro hne
          have h1 := hA3 hne
          rw [GameBoard.topOfStack_def] at h1
          have hcast : ((topOfStackOf gb.slots gb.fallerPos : Nat) : Int) ≤
              ((topOfStackOf (shiftDownLoop gb.fallerPos
                (Function.update gb.slots i none) (i - 1)) gb.fallerPos : Nat) : Int) := by
            exact_mod_cast htge
          show gb.fallerPos + 2 ≤ ((topOfStackOf (shiftDownLoop gb.fallerPos
            (Function.update gb.slots i none) (i - 1)) gb.fallerPos : Nat) : Int)
          omega
        · refine ⟨hcontig', hA2, hfm1, ?_⟩
          intro hne
          have h1 := hA3 hne
          rw [GameBoard.topOfStack_def] at h1
          have hcast : ((topOfStackOf gb.slots gb.fallerPos : Nat) : Int) ≤
              ((topOfStackOf (shiftDownLoop gb.fallerPos
                (Function.update gb.slots i none) (i - 1)) gb.fallerPos : Nat) : Int) := by
            exact_mod_cast htge
          show gb.fallerPos + 2 ≤ ((topOfStackOf (shiftDownLoop gb.fallerPos
            (Function.update gb.slots i none) (i - 1)) gb.fallerPos : Nat) : Int)
          omega
    · have hne : (q.answerMap.erase (normalizeGuess g)).isEmpty = false :=
        Bool.eq_false_iff.mpr he
      rw [handleGuessEvent_partialSolve gb g i q hh hne]
      refine ⟨?_, hA2, hfm1, ?_⟩
      · show contigFrom1 (Function.update gb.slots i
          (some { origQuestion := q.origQuestion, whose := q.whose,
                  answerMap := q.answerMap.erase (normalizeGuess g) })) gb.fallerPos
        apply contig1_occ_congr gb.slots _ gb.fallerPos _ hc
        intro k hk
        rw [Function.update_apply]
        by_cases hki : k = i
        · rw [if_pos hki, hki, hslot]; simp
        · rw [if_neg hki]
      · intro hnem1
        have h1 := hA3 hnem1
        rw [GameBoard.topOfStack_def] at h1
        show gb.fallerPos + 2 ≤ ((topOfStackOf (Function.update gb.slots i
          (some { origQuestion := q.origQuestion, whose := q.whose,
                  answerMap := q.answerMap.erase (normalizeGuess g) }))
            gb.fallerPos : Nat) : Int)
        rw [tos_update_answer gb.slots gb.fallerPos i q _ hslot]
        exact h1

/-! ### Invariant preservation by `Tick` -/

lemma letGo_slots_ge1 (gb : GameBoard) (k : Nat) (hk : 1 ≤ k) :
    (gb.LetGoNextPiece).slots k = gb.slots k := by
  unfold GameBoard.LetGoNextPiece
  cases h : gb.queue.getLast? with
  | none => rfl
  | some q =>
    show Function.update gb.slots 0 (some q) k = gb.slots k
    rw [Function.update_apply, if_neg (by omega : ¬ k = 0)]

lemma letGo_contig1 (gb : GameBoard) (hc : contigFrom1 gb.slots (-1)) :
    contigFrom1 (gb.LetGoNextPiece).slots (-1) := by
  unfold GameBoard.LetGoNextPiece
  cases h : gb.queue.getLast? with
  | none => exact hc
  | some q => exact contig1_update0 gb.slots (-1) (some q) hc

lemma release_preserves_inv (gb : GameBoard) (hc : contigFrom1 gb.slots (-1))
    (hf : gb.fallerPos = -1) (h2 : gb.topOfStack ≠ 0) :
    BoardInv (tickFall ({ gb.LetGoNextPiece with fallerPos := 0 }) gb.topOfStack) := by
  have htt : gb.topOfStack = topOfStackOf gb.slots (-1) := by
    rw [GameBoard.topOfStack_def, hf]
  by_cases hl : (0 : Int) = (gb.topOfStack : Int) - 1
  · have hcnd : ({ gb.LetGoNextPiece with fallerPos := 0 } : GameBoard).fallerPos =
        (gb.topOfStack : Int) - 1 := hl
    rw [tickFall_land _ gb.topOfStack hcnd]
    refine ⟨?_, fun _ => rfl, le_refl (-1), fun habs => absurd rfl habs⟩
    show contigFrom1 (gb.LetGoNextPiece).slots (-1)
    exact letGo_contig1 gb hc
  · have hne : ({ gb.LetGoNextPiece with fallerPos := 0 } : GameBoard).fallerPos ≠
        (gb.topOfStack : Int) - 1 := hl
    have hnd : ¬(({ gb.LetGoNextPiece with fallerPos := 0 } : GameBoard).fallerPos = 0 ∧
        gb.topOfStack = 0) := fun hcon => h2 hcon.2
    rw [tickFall_fall _ gb.topOfStack hne hnd]
    have ht2 : 2 ≤ gb.topOfStack := by omega
    have hs0 : gb.slots 0 = none := by
      rcases topOfStackOf_min gb.slots (-1) 0 (by omega) (by decide) with h | h
      · exact h
      · exact absurd h (by omega)
    have htL : topOfStackOf (gb.LetGoNextPiece).slots 0 = topOfStackOf gb.slots (-1) := by
      apply topOfStackOf_congr
      intro k hk
      unfold occNF
      by_cases hk0 : k = 0
      · subst hk0
        constructor
        · rintro ⟨_, hx⟩; exact absurd (by norm_num) hx
        · rintro ⟨h1, _⟩; exact absurd hs0 h1
      · rw [letGo_slots_ge1 gb k (by omega)]
        constructor
        · rintro ⟨h1, _⟩; exact ⟨h1, by omega⟩
        · rintro ⟨h1, _⟩; exact ⟨h1, by omega⟩
    refine ⟨?_, fun hst => absurd rfl hst, ?_, fun _ => ?_⟩
    · show contigFrom1 (gb.LetGoNextPiece).slots 0
      exact contig1_ge1_congr gb.slots (gb.LetGoNextPiece).slots (-1) 0
        (fun k hk _ => letGo_slots_ge1 gb k hk) (by norm_num) (le_refl 0) hc
    · show (-1 : Int) ≤ 0
      norm_num
    · show (0 : Int) + 2 ≤ ((topOfStackOf (gb.LetGoNextPiece).slots 0 : Nat) : Int)
      rw [htL]
      omega

lemma step_preserves_inv (gb : GameBoard) (hc : contigFrom1 gb.slots gb.fallerPos)
    (hA3 : gb.fallerPos + 2 ≤ (gb.topOfStack : Int)) (hfm1 : -1 ≤ gb.fallerPos)
    (h2 : gb.topOfStack ≠ 0) (h3 : gb.fallerPos ≠ -1) :
    BoardInv (tickFall ({ gb with fallerPos := gb.fallerPos + 1 }) gb.topOfStack) := by
  have hf0 : 0 ≤ gb.fallerPos := by omega
  have htr : gb.topOfStack = topOfStackOf gb.slots gb.fallerPos := rfl
  have ht16 : topOfStackOf gb.slots gb.fallerPos ≤ NumSlots :=
    topOfStackOf_le gb.slots gb.fallerPos
  by_cases hland : gb.fallerPos + 1 = (gb.topOfStack : Int) - 1
  · have hcnd : ({ gb with fallerPos := gb.fallerPos + 1 } : GameBoard).fallerPos =
        (gb.topOfStack : Int) - 1 := hland
    rw [tickFall_land _ gb.topOfStack hcnd]
    refine ⟨?_, fun _ => rfl, le_refl (-1), fun habs => absurd rfl habs⟩
    show contigFrom1
      (if (0 : Int) < gb.fallerPos + 1
       then swapSlots gb.slots (gb.fallerPos + 1 - 1).toNat (gb.fallerPos + 1).toNat
       else gb.slots) (-1)
    rw [if_pos (show (0 : Int) < gb.fallerPos + 1 by omega)]
    have he1 : (gb.fallerPos + 1 - 1).toNat = gb.fallerPos.toNat := by omega
    have he2 : (gb.fallerPos + 1).toNat = topOfStackOf gb.slots gb.fallerPos - 1 := by omega
    rw [he1, he2]
    exact contig1_swap_land gb.slots gb.fallerPos gb.fallerPos.toNat hc
      (Int.toNat_of_nonneg hf0) (by omega) ht16
  · have hne : ({ gb with fallerPos := gb.fallerPos + 1 } : GameBoard).fallerPos ≠
        (gb.topOfStack : Int) - 1 := hland
    have hnd : ¬(({ gb with fallerPos := gb.fallerPos + 1 } : GameBoard).fallerPos = 0 ∧
        gb.topOfStack = 0) := fun hcon => h2 hcon.2
    rw [tickFall_fall _ gb.topOfStack hne hnd]
    have ht3 : gb.fallerPos + 3 ≤ (topOfStackOf gb.slots gb.fallerPos : Int) := by omega
    refine ⟨?_, fun hst => absurd rfl hst, ?_, fun _ => ?_⟩
    · show contigFrom1
        (if (0 : Int) < gb.fallerPos + 1
         then swapSlots gb.slots (gb.fallerPos + 1 - 1).toNat (gb.fallerPos + 1).toNat
         else gb.slots) (gb.fallerPos + 1)
      rw [if_pos (show (0 : Int) < gb.fallerPos + 1 by omega)]
      have he1 : (gb.fallerPos + 1 - 1).toNat = gb.fallerPos.toNat := by omega
      have he2 : (gb.fallerPos + 1).toNat = gb.fallerPos.toNat + 1 := by omega
      have he3 : gb.fallerPos + 1 = ((gb.fallerPos.toNat : Int)) + 1 := by omega
      rw [he1, he2, he3]
      exact contig1_swap_fall gb.slots gb.fallerPos gb.fallerPos.toNat hc
        (Int.toNat_of_nonneg hf0) (by omega) ht16
    · show (-1 : Int) ≤ gb.fallerPos + 1
      omega
    · show gb.fallerPos + 1 + 2 ≤ ((topOfStackOf
        (if (0 : Int) < gb.fallerPos + 1
         then swapSlots gb.slots (gb.fallerPos + 1 - 1).toNat (gb.fallerPos + 1).toNat
         else gb.slots) (gb.fallerPos + 1) : Nat) : Int)
      rw [if_pos (show (0 : Int) < gb.fallerPos + 1 by omega)]
      have he1 : (gb.fallerPos + 1 - 1).toNat = gb.fallerPos.toNat := by omega
      have he2 : (gb.fallerPos + 1).toNat = gb.fallerPos.toNat + 1 := by omega
      have he3 : gb.fallerPos + 1 = ((gb.fallerPos.toNat : Int)) + 1 := by omega
      rw [he1, he2, he3]
      rw [tos_swap_fall gb.slots gb.fallerPos gb.fallerPos.toNat
        (Int.toNat_of_nonneg hf0) (by omega) ht16]
      omega

theorem Tick_preserves_inv (gb : GameBoard) (h : BoardInv gb) : BoardInv gb.Tick := by
  obtain ⟨hc, hA2, hfm1, hA3⟩ := h
  by_cases h1 : gb.status = .PieceDropping
  · by_cases h2 : gb.topOfStack = 0
    · rw [Tick_dropping_dead gb h1 h2]
      exact ⟨hc, hA2, hfm1, hA3⟩
    · by_cases h3 : gb.fallerPos = -1
      · rw [Tick_dropping_release gb h1 h2 h3]
        exact release_preserves_inv gb (h3 ▸ hc) h3 h2
      · rw [Tick_dropping_step gb h1 h2 h3]
        exact step_preserves_inv gb hc (hA3 h3) hfm1 h2 h3
  · by_cases h2 : gb.oppqueueReady = true ∧ gb.oppQueue ≠ []
    · rw [Tick_about_drain gb h1 h2.1 h2.2]
      have hf : gb.fallerPos = -1 := hA2 h1
      obtain ⟨hc', hA2', hfm1', hA3'⟩ :=
        addOppQueue_preserves_inv gb ⟨hc, hA2, hfm1, hA3⟩ hf
      split
      · exact ⟨hc', hA2', hfm1', hA3'⟩
      · exact ⟨hc', hA2', hfm1', hA3'⟩
    · by_cases h3 : gb.queue = []
      · rw [Tick_about_idle gb h1 h2 h3]
        have hfq := hA2 h1
        exact ⟨hc, fun _ => hfq, hfm1, hA3⟩
      · by_cases h4 : gb.topOfStack = 0
        · rw [Tick_about_dead gb h1 h2 h3 h4]
          exact ⟨hc, hA2, hfm1, hA3⟩
        · rw [Tick_about_release gb h1 h2 h3 h4]
          have hfq := hA2 h1
          exact release_preserves_inv gb (hfq ▸ hc) hfq h4

/-! ### Question conservation -/

/-- All questions a board holds: slot array, player queue and attack queue. -/
def totalMS (gb : GameBoard) : Multiset Question :=
  slotsMS gb.slots + (gb.queue : Multiset Question) + (gb.oppQueue : Multiset Question)

lemma slotsMS_update_some (s : Nat → Option Question) (i : Nat) (hi : i < NumSlots)
    (v : Question) (q : Question) (hs : s i = some q) :
    slotsMS (Function.update s i (some v)) + {q} = {v} + slotsMS s := by
  have h := filterMapMS_update s i (some v) (List.range NumSlots)
    (List.nodup_range NumSlots) (List.mem_range.mpr hi)
  rw [hs] at h
  unfold slotsMS slotList
  simpa using h

lemma slotsMS_update_none (s : Nat → Option Question) (i : Nat) (hi : i < NumSlots)
    (q : Question) (hs : s i = some q) :
    slotsMS (Function.update s i none) + {q} = slotsMS s := by
  have h := filterMapMS_update s i none (List.range NumSlots)
    (List.nodup_range NumSlots) (List.mem_range.mpr hi)
  rw [hs] at h
  unfold slotsMS slotList
  simpa using h

lemma slotsMS_update0_some (s : Nat → Option Question) (q : Question) (h0 : s 0 = none) :
    slotsMS (Function.update s 0 (some q)) = slotsMS s + {q} := by
  have h := filterMapMS_update s 0 (some q) (List.range NumSlots)
    (List.nodup_range NumSlots) (List.mem_range.mpr (by decide))
  rw [h0] at h
  unfold slotsMS slotList
  simp only [Option.toList_some, Option.toList_none, Multiset.coe_singleton,
    Multiset.coe_nil, add_zero] at h
  rw [h, add_comm]

lemma letGo_oppQueue (gb : GameBoard) : (gb.LetGoNextPiece).oppQueue = gb.oppQueue := by
  unfold GameBoard.LetGoNextPiece
  cases h : gb.queue.getLast? <;> rfl

lemma letGo_conserve (gb : GameBoard) (h0 : gb.slots 0 = none) :
    slotsMS (gb.LetGoNextPiece).slots + ((gb.LetGoNextPiece).queue : Multiset Question) =
      slotsMS gb.slots + (gb.queue : Multiset Question) := by
  unfold GameBoard.LetGoNextPiece
  cases h : gb.queue.getLast? with
  | none => rfl
  | some q =>
    show slotsMS (Function.update gb.slots 0 (some q)) +
      ((gb.queue.dropLast : List Question) : Multiset Question) = _
    have hq : gb.queue ≠ [] := by
      intro he; rw [he] at h; simp at h
    have hqq : gb.queue.getLast hq = q := by
      have := List.getLast?_eq_getLast gb.queue hq
      rw [h] at this
      exact (Option.some_inj.mp this).symm
    have hdl : gb.queue.dropLast ++ [q] = gb.queue := by
      rw [← hqq]
      exact List.dropLast_append_getLast hq
    have hms : ((gb.queue.dropLast : List Question) : Multiset Question) + {q} =
        (gb.queue : Multiset Question) := by
      have := congrArg (fun l : List Question => (l : Multiset Question)) hdl
      simpa [← Multiset.coe_add] using this
    rw [slotsMS_update0_some gb.slots q h0, add_assoc, add_comm ({q} : Multiset Question),
      hms]

lemma slotsMS_shiftDownLoop (f : Int) :
    ∀ (l : Nat) (s : Nat → Option Question), l + 1 < NumSlots →
      slotsMS (shiftDownLoop f s l) = slotsMS s := by
  intro l
  induction l with
  | zero => intro s _; rfl
  | succ l ih =>
    intro s hl
    have h16 : NumSlots = 16 := rfl
    have he : shiftDownLoop f s (l + 1) =
        if (s (l + 1)).isSome ∧ ((l + 1 : Int) ≠ f) then
          shiftDownLoop f (swapSlots s (l + 1) (l + 2)) l
        else s := rfl
    rw [he]
    split
    · rw [ih _ (by omega)]
      exact filterMapMS_swap s (l + 1) (l + 2) (List.range NumSlots) (List.nodup_range _)
        (List.mem_range.mpr (by omega)) (List.mem_range.mpr (by omega))
    · rfl

lemma hg_conserve (gb : GameBoard) (g : Word) :
    (slotsMS (gb.handleGuessEvent g).1.slots = slotsMS gb.slots ∧
      (gb.handleGuessEvent g).2.1 = none)
    ∨ (∃ i q, firstHit gb.slots (normalizeGuess g) = some (i, q) ∧
        (q.answerMap.erase (normalizeGuess g)).isEmpty = true ∧
        slotsMS (gb.handleGuessEvent g).1.slots + {q} = slotsMS gb.slots ∧
        (gb.handleGuessEvent g).2.1 =
          (if q.whose = gb.idx
           then some (populateMap { q with answerMap := q.answerMap.erase (normalizeGuess g) })
           else none))
    ∨ (∃ i q, firstHit gb.slots (normalizeGuess g) = some (i, q) ∧
        (q.answerMap.erase (normalizeGuess g)).isEmpty = false ∧
        slotsMS (gb.handleGuessEvent g).1.slots + {q} =
          {({ q with answerMap := q.answerMap.erase (normalizeGuess g) } : Question)} +
            slotsMS gb.slots ∧
        (gb.handleGuessEvent g).2.1 = none) := by
  have h16 : NumSlots = 16 := rfl
  cases hh : firstHit gb.slots (normalizeGuess g) with
  | none =>
    left
    by_cases hpun : ∃ j ∈ List.range NumSlots,
        (j : Int) = gb.fallerPos ∧ wrongAt gb.slots (normalizeGuess g) j
    · obtain ⟨j, hjr, hjf, hw⟩ := hpun
      have hj16 : j < NumSlots := List.mem_range.mp hjr
      have hp := handleGuessEvent_punish gb g j hj16 hjf hw hh
      by_cases ht : gb.topOfStack = 0
      · rw [hp.1 ht]; exact ⟨rfl, rfl⟩
      · rw [hp.2 ht]
        have ht16 : gb.topOfStack ≤ NumSlots := topOfStackOf_le gb.slots gb.fallerPos
        refine ⟨?_, rfl⟩
        show slotsMS (swapSlots gb.slots j (gb.topOfStack - 1)) = slotsMS gb.slots
        exact filterMapMS_swap gb.slots j (gb.topOfStack - 1) (List.range NumSlots)
          (List.nodup_range _) (List.mem_range.mpr hj16) (List.mem_range.mpr (by omega))
    · rw [handleGuessEvent_no_hit gb g hh hpun]
      exact ⟨rfl, rfl⟩
  | some iq =>
    obtain ⟨i, q⟩ := iq
    obtain ⟨hir, hslot, hmem⟩ :=
      firstHitGo_some_spec gb.slots (normalizeGuess g) (List.range NumSlots) i q hh
    have hi16 : i < NumSlots := List.mem_range.mp hir
    by_cases he : (q.answerMap.erase (normalizeGuess g)).isEmpty = true
    · right; left
      refine ⟨i, q, rfl, he, ?_⟩
      by_cases hfp : gb.fallerPos = (i : Int)
      · rw [handleGuessEvent_full_faller gb g i q hh he hfp]
        exact ⟨slotsMS_update_none gb.slots i hi16 q hslot, rfl⟩
      · rw [handleGuessEvent_full_nonfaller gb g i q hh he hfp]
        constructor
        · split
          · show slotsMS (shiftDownLoop gb.fallerPos (Function.update gb.slots i none)
              (i - 1)) + {q} = slotsMS gb.slots
            rw [slotsMS_shiftDownLoop gb.fallerPos (i - 1) _ (by omega)]
            exact slotsMS_update_none gb.slots i hi16 q hslot
          · show slotsMS (shiftDownLoop gb.fallerPos (Function.update gb.slots i none)
              (i - 1)) + {q} = slotsMS gb.slots
            rw [slotsMS_shiftDownLoop gb.fallerPos (i - 1) _ (by omega)]
            exact slotsMS_update_none gb.slots i hi16 q hslot
        · rfl
    · have hne : (q.answerMap.erase (normalizeGuess g)).isEmpty = false :=
        Bool.eq_false_iff.mpr he
      right; right
      refine ⟨i, q, rfl, hne, ?_, ?_⟩
      · rw [handleGuessEvent_partialSolve gb g i q hh hne]
        exact slotsMS_update_some gb.slots i hi16 _ q hslot
      · rw [handleGuessEvent_partialSolve gb g i q hh hne]

lemma drain_conserve (gb : GameBoard) (hc : contigAll gb.slots (-1))
    (hcap : occCnt gb.slots + gb.oppQueue.length ≤ NumSlots) :
    slotsMS (gb.addOppQueue).1.slots = slotsMS gb.slots + (gb.oppQueue : Multiset Question) ∧
    (gb.addOppQueue).1.dead = gb.dead ∧
    (gb.addOppQueue).2 = gb.oppQueue.length ∧
    (gb.addOppQueue).1.oppQueue = [] := by
  obtain ⟨h1, h2, h3, _⟩ := addOppQueueGo_conserve gb.oppQueue gb.slots gb.dead hc hcap
  exact ⟨h1, h2, h3, rfl⟩

lemma addOppQueueGo_conserve_above :
    ∀ (Q : List Question) (s : Nat → Option Question) (dead : Bool),
      Q.length ≤ NumSlots → (∀ k, k < Q.length → s k = none) →
      slotsMS (addOppQueueGo s dead Q).1 = slotsMS s + (Q : Multiset Question) ∧
      (addOppQueueGo s dead Q).2.1 = dead ∧
      (addOppQueueGo s dead Q).2.2 = Q.length := by
  intro Q
  induction Q with
  | nil =>
    intro s dead _ _
    exact ⟨by simp [addOppQueueGo], rfl, rfl⟩
  | cons q rest ih =>
    intro s dead hlen hpre
    have h16 : NumSlots = 16 := rfl
    have h0 : s 0 = none := hpre 0 (by simp)
    have hstep := slotsMS_oppStep s q h0
    have hpre' : ∀ k, k < rest.length →
        (Function.update (shiftUpLoop s) (NumSlots - 1) (some q)) k = none := by
      intro k hk
      rw [oppStep_apply]
      have hlen' : rest.length + 1 ≤ NumSlots := by
        simpa only [List.length_cons] using hlen
      rw [if_neg (by omega), if_pos (by omega)]
      exact hpre (k + 1) (by simp only [List.length_cons]; omega)
    have hdead : (if ((Function.update (shiftUpLoop s) (NumSlots - 1) (some q)) 0).isSome ∧
        rest ≠ [] then true else dead) = dead := by
      by_cases hrne : rest = []
      · rw [if_neg (by simp [hrne])]
      · have hr0 : 0 < rest.length := List.length_pos.mpr hrne
        have h0' := hpre' 0 hr0
        rw [if_neg (by simp [h0'])]
    have hrest := ih (Function.update (shiftUpLoop s) (NumSlots - 1) (some q)) dead
      (by simp only [List.length_cons] at hlen; omega) hpre'
    unfold addOppQueueGo
    dsimp only
    rw [hdead]
    refine ⟨?_, hrest.2.1, ?_⟩
    · rw [hrest.1, hstep]
      have hcoe : ((q :: rest : List Question) : Multiset Question) =
          {q} + (rest : Multiset Question) := by
        simp [Multiset.singleton_add]
      rw [hcoe]
      abel
    · rw [hrest.2.2]
      simp

lemma drain_conserve_above (gb : GameBoard)
    (hcap : gb.oppQueue.length ≤ NumSlots)
    (hpre : ∀ k, k < gb.oppQueue.length → gb.slots k = none) :
    slotsMS (gb.addOppQueue).1.slots = slotsMS gb.slots + (gb.oppQueue : Multiset Question) ∧
    (gb.addOppQueue).1.dead = gb.dead ∧
    (gb.addOppQueue).2 = gb.oppQueue.length ∧
    (gb.addOppQueue).1.oppQueue = [] := by
  obtain ⟨h1, h2, h3⟩ :=
    addOppQueueGo_conserve_above gb.oppQueue gb.slots gb.dead hcap hpre
  exact ⟨h1, h2, h3, rfl⟩

lemma release_conserve (gb : GameBoard) (hf : gb.fallerPos = -1)
    (h2 : gb.topOfStack ≠ 0) :
    totalMS (tickFall ({ gb.LetGoNextPiece with fallerPos := 0 }) gb.topOfStack) =
      totalMS gb := by
  have htt : gb.topOfStack = topOfStackOf gb.slots (-1) := by
    rw [GameBoard.topOfStack_def, hf]
  have hs0 : gb.slots 0 = none := by
    rcases topOfStackOf_min gb.slots (-1) 0 (by omega) (by decide) with h | h
    · exact h
    · exact absurd h (by omega)
  have hLG := letGo_conserve gb hs0
  have hopp := letGo_oppQueue gb
  by_cases hl : (0 : Int) = (gb.topOfStack : Int) - 1
  · have hcnd : ({ gb.LetGoNextPiece with fallerPos := 0 } : GameBoard).fallerPos =
        (gb.topOfStack : Int) - 1 := hl
    rw [tickFall_land _ gb.topOfStack hcnd]
    show slotsMS (gb.LetGoNextPiece).slots +
        ((gb.LetGoNextPiece).queue : Multiset Question) +
        ((gb.LetGoNextPiece).oppQueue : Multiset Question) = totalMS gb
    rw [hopp, hLG]
    rfl
  · have hne : ({ gb.LetGoNextPiece with fallerPos := 0 } : GameBoard).fallerPos ≠
        (gb.topOfStack : Int) - 1 := hl
    have hnd : ¬(({ gb.LetGoNextPiece with fallerPos := 0 } : GameBoard).fallerPos = 0 ∧
        gb.topOfStack = 0) := fun hcon => h2 hcon.2
    rw [tickFall_fall _ gb.topOfStack hne hnd]
    show slotsMS (gb.LetGoNextPiece).slots +
        ((gb.LetGoNextPiece).queue : Multiset Question) +
        ((gb.LetGoNextPiece).oppQueue : Multiset Question) = totalMS gb
    rw [hopp, hLG]
    rfl

lemma step_conserve (gb : GameBoard) (hfm1 : -1 ≤ gb.fallerPos)
    (hA3 : gb.fallerPos + 2 ≤ (gb.topOfStack : Int)) (h3 : gb.fallerPos ≠ -1) :
    totalMS (tickFall ({ gb with fallerPos := gb.fallerPos + 1 }) gb.topOfStack) =
      totalMS gb := by
  have h16 : NumSlots = 16 := rfl
  have hf0 : 0 ≤ gb.fallerPos := by omega
  have htr : gb.topOfStack = topOfStackOf gb.slots gb.fallerPos := rfl
  have ht16 : topOfStackOf gb.slots gb.fallerPos ≤ NumSlots :=
    topOfStackOf_le gb.slots gb.fallerPos
  have hsw : slotsMS (swapSlots gb.slots (gb.fallerPos + 1 - 1).toNat
      (gb.fallerPos + 1).toNat) = slotsMS gb.slots :=
    filterMapMS_swap gb.slots _ _ (List.range NumSlots) (List.nodup_range _)
      (List.mem_range.mpr (by omega)) (List.mem_range.mpr (by omega))
  by_cases hland : gb.fallerPos + 1 = (gb.topOfStack : Int) - 1
  · have hcnd : ({ gb with fallerPos := gb.fallerPos + 1 } : GameBoard).fallerPos =
        (gb.topOfStack : Int) - 1 := hland
    rw [tickFall_land _ gb.topOfStack hcnd]
    show slotsMS
        (if (0 : Int) < gb.fallerPos + 1
         then swapSlots gb.slots (gb.fallerPos + 1 - 1).toNat (gb.fallerPos + 1).toNat
         else gb.slots) +
      (gb.queue : Multiset Question) + (gb.oppQueue : Multiset Question) = totalMS gb
    rw [if_pos (show (0 : Int) < gb.fallerPos + 1 by omega), hsw]
    rfl
  · have hne : ({ gb with fallerPos := gb.fallerPos + 1 } : GameBoard).fallerPos ≠
        (gb.topOfStack : Int) - 1 := hland
    have hnd : ¬(({ gb with fallerPos := gb.fallerPos + 1 } : GameBoard).fallerPos = 0 ∧
        gb.topOfStack = 0) := by
      rintro ⟨hx, _⟩
      have hx' : gb.fallerPos + 1 = 0 := hx
      omega
    rw [tickFall_fall _ gb.topOfStack hne hnd]
    show slotsMS
        (if (0 : Int) < gb.fallerPos + 1
         then swapSlots gb.slots (gb.fallerPos + 1 - 1).toNat (gb.fallerPos + 1).toNat
         else gb.slots) +
      (gb.queue : Multiset Question) + (gb.oppQueue : Multiset Question) = totalMS gb
    rw [if_pos (show (0 : Int) < gb.fallerPos + 1 by omega), hsw]
    rfl

lemma Tick_conserve (gb : GameBoard) (hinv : BoardInv gb)
    (hcap : gb.oppQueue.length ≤ NumSlots)
    (hpre : ∀ k, k < gb.oppQueue.length → gb.slots k = none) :
    totalMS gb.Tick = totalMS gb := by
  obtain ⟨hc, hA2, hfm1, hA3⟩ := hinv
  by_cases h1 : gb.status = .PieceDropping
  · by_cases h2 : gb.topOfStack = 0
    · rw [Tick_dropping_dead gb h1 h2]; rfl
    · by_cases h3 : gb.fallerPos = -1
      · rw [Tick_dropping_release gb h1 h2 h3]
        exact release_conserve gb h3 h2
      · rw [Tick_dropping_step gb h1 h2 h3]
        exact step_conserve gb hfm1 (hA3 h3) h3
  · by_cases h2 : gb.oppqueueReady = true ∧ gb.oppQueue ≠ []
    · rw [Tick_about_drain gb h1 h2.1 h2.2]
      obtain ⟨h1', _, _, _⟩ := drain_conserve_above gb hcap hpre
      split
      · show slotsMS (gb.addOppQueue).1.slots + (gb.queue : Multiset Question) +
          (([] : List Question) : Multiset Question) = totalMS gb
        rw [h1']
        show slotsMS gb.slots + (gb.oppQueue : Multiset Question) +
          (gb.queue : Multiset Question) + (([] : List Question) : Multiset Question) =
          slotsMS gb.slots + (gb.queue : Multiset Question) +
            (gb.oppQueue : Multiset Question)
        simp only [Multiset.coe_nil, add_zero]
        abel
      · show slotsMS (gb.addOppQueue).1.slots + (gb.queue : Multiset Question) +
          (([] : List Question) : Multiset Question) = totalMS gb
        rw [h1']
        show slotsMS gb.slots + (gb.oppQueue : Multiset Question) +
          (gb.queue : Multiset Question) + (([] : List Question) : Multiset Question) =
          slotsMS gb.slots + (gb.queue : Multiset Question) +
            (gb.oppQueue : Multiset Question)
        simp only [Multiset.coe_nil, add_zero]
        abel
    · by_cases h3 : gb.queue = []
      · rw [Tick_about_idle gb h1 h2 h3]; rfl
      · by_cases h4 : gb.topOfStack = 0
        · rw [Tick_about_dead gb h1 h2 h3 h4]; rfl
        · rw [Tick_about_release gb h1 h2 h3 h4]
          exact release_conserve gb (hA2 h1) h4

/-! ### Concrete instances -/

/-- Single-answer question over the letter `a`. -/
def qA : Question :=
  { origQuestion := { alphagram := ['a'], words := [['a']] }, whose := 0, answerMap := [['a']] }

/-- Single-answer question over the letter `b`. -/
def qB : Question :=
  { origQuestion := { alphagram := ['b'], words := [['b']] }, whose := 0, answerMap := [['b']] }

/-- Question whose stored alphagram is upper-case `AB`; the guess `ba` is a
letter-permutation of it but not one of its answers. -/
def qW : Question :=
  { origQuestion := { alphagram := ['A','B'], words := [['a','b']] }, whose := 0,
    answerMap := [['a','b']] }

/-- Two-answer question: erasing one answer leaves the other. -/
def qP : Question :=
  { origQuestion := { alphagram := ['b','c'], words := [['b'],['c']] }, whose := 0,
    answerMap := [['b'],['c']] }

/-- A board whose sixteen slots are all occupied, `qB` sitting in slot 1. -/
def cxA : GameBoard :=
  { slots := fun i => if i = 1 then some qB else if i < 16 then some qA else none,
    timer := none, queue := [], oppQueue := [], fallerPos := -1, dead := false,
    won := false, idx := 0, oppqueueReady := false, solved := 0,
    status := .PieceAboutToDrop, lastStateChange := { changeType := .Unset } }

/-- A board whose sixteen slots are all occupied, with one pending attack. -/
def cxB : GameBoard :=
  { slots := fun i => if i < 16 then some qA else none,
    timer := none, queue := [], oppQueue := [qB], fallerPos := -1, dead := false,
    won := false, idx := 0, oppqueueReady := true, solved := 0,
    status := .PieceAboutToDrop, lastStateChange := { changeType := .Unset } }

/-- A board with a two-slot stack: `qA` at slot 14 above `qB` at slot 15. -/
def cxC : GameBoard :=
  { slots := fun i => if i = 14 then some qA else if i = 15 then some qB else none,
    timer := none, queue := [], oppQueue := [], fallerPos := -1, dead := false,
    won := false, idx := 0, oppqueueReady := false, solved := 0,
    status := .PieceAboutToDrop, lastStateChange := { changeType := .Unset } }

/-- A board with `qW` falling at slot 2 over a two-slot stack. -/
def wbF : GameBoard :=
  { slots := fun i => if i = 2 then some qW else if 14 ≤ i ∧ i < 16 then some qA else none,
    timer := some TickDuration, queue := [], oppQueue := [], fallerPos := 2, dead := false,
    won := false, idx := 0, oppqueueReady := false, solved := 0,
    status := .PieceDropping, lastStateChange := { changeType := .Unset } }

/-- A board one solve away from winning, with an attack still queued. -/
def wbW : GameBoard :=
  { slots := fun i => if i = 15 then some qB else none,
    timer := none, queue := [], oppQueue := [qA], fallerPos := -1, dead := false,
    won := false, idx := 0, oppqueueReady := false, solved := 0,
    status := .PieceAboutToDrop, lastStateChange := { changeType := .Unset } }

/-- A board with a settled `qW` at slot 15 and no piece in flight. -/
def wbT : GameBoard :=
  { slots := fun i => if i = 15 then some qW else none,
    timer := none, queue := [], oppQueue := [], fallerPos := -1, dead := false,
    won := false, idx := 0, oppqueueReady := false, solved := 0,
    status := .PieceAboutToDrop, lastStateChange := { changeType := .Unset } }

/-- A board with the two-answer `qP` settled at slot 15. -/
def wbP : GameBoard :=
  { slots := fun i => if i = 15 then some qP else none,
    timer := none, queue := [], oppQueue := [], fallerPos := -1, dead := false,
    won := false, idx := 0, oppqueueReady := false, solved := 0,
    status := .PieceAboutToDrop, lastStateChange := { changeType := .Unset } }

/-- A board with one settled slot, one pending attack and the drain flagged. -/
def wbD : GameBoard :=
  { slots := fun i => if i = 15 then some qA else none,
    timer := none, queue := [], oppQueue := [qB], fallerPos := -1, dead := false,
    won := false, idx := 0, oppqueueReady := true, solved := 0,
    status := .PieceAboutToDrop, lastStateChange := { changeType := .Unset } }

/-- A manager about to start a round with only 49 questions left. -/
def gsX : GameStateManager :=
  { status := .Countdown, boards := [], players := [['p'], ['q']], questionOffset := 1 }

/-- A 50-alphagram shuffled provider list. -/
def shufX : List WSAlphagram :=
  List.replicate 50 { alphagram := ['a'], words := [['a']] }

/-! ### The claims -/

/-- C1: contiguity of the non-faller occupied slots is established at board
construction and preserved by `Tick`, `handleGuessEvent` and `addOppQueue` —
but only on indices `≥ 1` (the `BoardInv` invariant): the full-suffix form of
the claim fails, because the shift loop of a full solve never moves slot 0
(see the counterexample). -/
theorem C1_contiguity_invariant :
    (∀ idx, BoardInv (newGameBoard idx)) ∧
    (∀ gb, BoardInv gb → BoardInv gb.Tick) ∧
    (∀ gb g, BoardInv gb → BoardInv (gb.handleGuessEvent g).1) ∧
    (∀ gb, BoardInv gb → gb.fallerPos = -1 → BoardInv (gb.addOppQueue).1) :=
  ⟨boardInv_newGameBoard, Tick_preserves_inv, handleGuessEvent_preserves_inv,
    addOppQueue_preserves_inv⟩

/-- C1 counterexample: on a full board, fully solving slot 1 leaves slot 0
occupied above the now-empty slot 1, so the claimed full contiguous-suffix
property is not preserved by `handleGuessEvent`. -/
theorem C1_counterexample :
    contigAll cxA.slots cxA.fallerPos ∧
    ¬ contigAll ((cxA.handleGuessEvent ['b']).1.slots)
      ((cxA.handleGuessEvent ['b']).1.fallerPos) := by decide

/-- C1 witness: the invariant holds for a fresh board and is preserved by its
first tick. -/
theorem C1_witness :
    BoardInv (newGameBoard 0) ∧ BoardInv ((newGameBoard 0).Tick) :=
  ⟨by decide, C1_contiguity_invariant.2.1 (newGameBoard 0) (by decide)⟩

/-- C2: a question leaves the slot array only by being fully solved (the
emitted attack then carries it when owner-solved); the attack-queue drain and
`Tick` conserve the question multiset — provided every queued attack arrives
above the stack, i.e. the first `oppQueue.length` slots are empty.  Without
that room each drained attack that finds slot 0 occupied rotates that
question into slot 15 and overwrites it (see the counterexample). -/
theorem C2_question_conservation :
    (∀ (gb : GameBoard) (g : Word),
      (slotsMS (gb.handleGuessEvent g).1.slots = slotsMS gb.slots ∧
        (gb.handleGuessEvent g).2.1 = none)
      ∨ (∃ i q, firstHit gb.slots (normalizeGuess g) = some (i, q) ∧
          (q.answerMap.erase (normalizeGuess g)).isEmpty = true ∧
          slotsMS (gb.handleGuessEvent g).1.slots + {q} = slotsMS gb.slots ∧
          (gb.handleGuessEvent g).2.1 =
            (if q.whose = gb.idx
             then some (populateMap { q with answerMap := q.answerMap.erase (normalizeGuess g) })
             else none))
      ∨ (∃ i q, firstHit gb.slots (normalizeGuess g) = some (i, q) ∧
          (q.answerMap.erase (normalizeGuess g)).isEmpty = false ∧
          slotsMS (gb.handleGuessEvent g).1.slots + {q} =
            {({ q with answerMap := q.answerMap.erase (normalizeGuess g) } : Question)} +
              slotsMS gb.slots ∧
          (gb.handleGuessEvent g).2.1 = none)) ∧
    (∀ (gb : GameBoard), gb.oppQueue.length ≤ NumSlots →
      (∀ k, k < gb.oppQueue.length → gb.slots k = none) →
      slotsMS (gb.addOppQueue).1.slots = slotsMS gb.slots + (gb.oppQueue : Multiset Question) ∧
      (gb.addOppQueue).1.dead = gb.dead) ∧
    (∀ gb, BoardInv gb → gb.oppQueue.length ≤ NumSlots →
      (∀ k, k < gb.oppQueue.length → gb.slots k = none) →
      totalMS gb.Tick = totalMS gb) :=
  And.intro hg_conserve (And.intro
    (fun gb hcap hpre =>
      And.intro (drain_conserve_above gb hcap hpre).1
        (drain_conserve_above gb hcap hpre).2.1)
    Tick_conserve)

/-- C2 counterexample: draining one attack into a full board destroys a
question that was never solved — its multiplicity drops from 16 to 15 — and
does not even set the dead flag, since the overwrite happens on the last
queued attack. -/
theorem C2_counterexample :
    Multiset.count qA (slotsMS cxB.slots) = 16 ∧
    Multiset.count qA (slotsMS ((cxB.addOppQueue).1.slots)) = 15 ∧
    (cxB.addOppQueue).1.dead = false ∧
    (cxB.addOppQueue).1.solved = cxB.solved := by decide

/-- C2 witness: a one-slot board with one queued attack ticks through its
drain conserving every question. -/
theorem C2_witness :
    BoardInv wbD ∧ wbD.oppQueue.length ≤ NumSlots ∧
    (∀ k, k < wbD.oppQueue.length → wbD.slots k = none) ∧
    totalMS wbD.Tick = totalMS wbD :=
  ⟨by decide, by decide, by decide,
   C2_question_conservation.2.2 wbD (by decide) (by decide) (by decide)⟩

/-- C3: every landing schedules `TickDuration` when the piece landed at slot 0
and `TickDuration / 4` otherwise: a natural landing in `tickFall` follows that
rule verbatim, and the punishment drop — which always schedules
`TickDuration / 4` — lands at slot `topOfStack - 1 ≥ 1` on every board
satisfying the invariant, so the rule holds for it as well. -/
theorem C3_landing_tick_duration :
    (∀ (gb : GameBoard) (t : Nat), gb.fallerPos = (t : Int) - 1 →
      (tickFall gb t).timer =
        some (if gb.fallerPos = 0 then TickDuration else TickDuration / 4) ∧
      (tickFall gb t).fallerPos = -1 ∧
      (tickFall gb t).lastStateChange.changeType = .PieceLand ∧
      (tickFall gb t).lastStateChange.payloadNum = gb.fallerPos) ∧
    (∀ (gb : GameBoard) (g : Word) (j : Nat), BoardInv gb → j < NumSlots →
      (j : Int) = gb.fallerPos →
      wrongAt gb.slots (normalizeGuess g) j →
      firstHit gb.slots (normalizeGuess g) = none →
      2 ≤ gb.topOfStack ∧
      (gb.handleGuessEvent g).1.timer = some (TickDuration / 4) ∧
      (gb.handleGuessEvent g).1.fallerPos = -1 ∧
      (gb.handleGuessEvent g).1.lastStateChange.changeType = .PieceLand ∧
      (gb.handleGuessEvent g).1.lastStateChange.payloadNum = (gb.topOfStack : Int) - 1) := by
  constructor
  · intro gb t h
    rw [tickFall_land gb t h]
    exact ⟨rfl, rfl, rfl, rfl⟩
  · intro gb g j hinv hj hjf hw hh
    obtain ⟨hc, hA2, hfm1, hA3⟩ := hinv
    have hfne : gb.fallerPos ≠ -1 := by omega
    have hA3' := hA3 hfne
    have ht2 : 2 ≤ gb.topOfStack := by omega
    rw [(handleGuessEvent_punish gb g j hj hjf hw hh).2 (by omega)]
    exact ⟨ht2, rfl, rfl, rfl, rfl⟩

/-- C3 witness: the punishment drop on a board with the faller at slot 2 over
a stack topped at 14 schedules a quarter tick. -/
theorem C3_witness :
    BoardInv wbF ∧ (wbF.handleGuessEvent ['b','a']).1.timer = some (TickDuration / 4) :=
  ⟨by decide, (C3_landing_tick_duration.2 wbF ['b','a'] 2 (by decide) (by decide)
    (by decide) (by decide) (by decide)).2.1⟩

/-- C4: an owner-solved question is emitted to the attack router with its
`whose` field unchanged and its answer map repopulated to the full lowercased
answer set of its alphagram. -/
theorem C4_attack_repopulated :
    ∀ (gb : GameBoard) (g : Word) (i : Nat) (q : Question),
      firstHit gb.slots (normalizeGuess g) = some (i, q) →
      (q.answerMap.erase (normalizeGuess g)).isEmpty = true →
      q.whose = gb.idx →
      ∃ out, (gb.handleGuessEvent g).2.1 = some out ∧
        out.whose = q.whose ∧ out.origQuestion = q.origQuestion ∧
        out.answerMap = (q.origQuestion.words.map toLowerW).dedup := by
  intro gb g i q hh he hqw
  by_cases hfp : gb.fallerPos = (i : Int)
  · rw [handleGuessEvent_full_faller gb g i q hh he hfp]
    refine ⟨populateMap { q with answerMap := q.answerMap.erase (normalizeGuess g) },
      ?_, rfl, rfl, rfl⟩
    show (if q.whose = gb.idx
          then some (populateMap { q with answerMap := q.answerMap.erase (normalizeGuess g) })
          else none) = _
    rw [if_pos hqw]
  · rw [handleGuessEvent_full_nonfaller gb g i q hh he hfp]
    refine ⟨populateMap { q with answerMap := q.answerMap.erase (normalizeGuess g) },
      ?_, rfl, rfl, rfl⟩
    show (if q.whose = gb.idx
          then some (populateMap { q with answerMap := q.answerMap.erase (normalizeGuess g) })
          else none) = _
    rw [if_pos hqw]

/-- C4 witness: solving `qB` on its owner's board emits it with owner 0 and a
repopulated answer map. -/
theorem C4_witness :
    ∃ out, (cxC.handleGuessEvent ['b']).2.1 = some out ∧
      out.whose = qB.whose ∧ out.origQuestion = qB.origQuestion ∧
      out.answerMap = (qB.origQuestion.words.map toLowerW).dedup :=
  C4_attack_repopulated cxC ['b'] 15 qB (by decide) (by decide) (by decide)

/-- C5: when a guess partially solves the lowest-indexed slot holding it, that
slot alone is mutated (the guess erased from its answer map) and every slot
below the hit is free of the guess — but the claim's "no other slot is
mutated" fails when the erase empties the map, because the full-solve shift
then moves other slots (see the counterexample). -/
theorem C5_partial_solve_frame :
    ∀ (gb : GameBoard) (g : Word) (i : Nat) (q : Question),
      firstHit gb.slots (normalizeGuess g) = some (i, q) →
      (q.answerMap.erase (normalizeGuess g)).isEmpty = false →
      (gb.handleGuessEvent g).1.slots i =
        some { q with answerMap := q.answerMap.erase (normalizeGuess g) } ∧
      (∀ k, k ≠ i → (gb.handleGuessEvent g).1.slots k = gb.slots k) ∧
      (∀ k, k < i → ∀ p, gb.slots k = some p → normalizeGuess g ∉ p.answerMap) := by
  intro gb g i q hh hne
  have hh' : firstHitGo gb.slots (normalizeGuess g) (List.range' 0 NumSlots) = some (i, q) := by
    rw [← List.range_eq_range']
    exact hh
  rw [handleGuessEvent_partialSolve gb g i q hh hne]
  refine ⟨?_, ?_, ?_⟩
  · show Function.update gb.slots i
      (some { q with answerMap := q.answerMap.erase (normalizeGuess g) }) i = _
    rw [Function.update_same]
  · intro k hk
    show Function.update gb.slots i
      (some { q with answerMap := q.answerMap.erase (normalizeGuess g) }) k = gb.slots k
    rw [Function.update_apply, if_neg hk]
  · intro k hk p hp
    exact firstHitGo_range'_min gb.slots (normalizeGuess g) NumSlots 0 i q hh'
      k (Nat.zero_le k) hk p hp

/-- C5 counterexample: fully solving slot 15 also mutates slot 14 — the shift
loop moves its question down — so the claimed single-slot frame property does
not hold for every guess that removes an answer. -/
theorem C5_counterexample :
    firstHit cxC.slots (normalizeGuess ['b']) = some (15, qB) ∧
    (cxC.handleGuessEvent ['b']).1.slots 14 ≠ cxC.slots 14 := by decide

/-- C5 witness: a partial solve of `qP` at slot 15 erases the guess there and
leaves slot 14 untouched. -/
theorem C5_witness :
    (wbP.handleGuessEvent ['b']).1.slots 15 =
      some { qP with answerMap := qP.answerMap.erase (normalizeGuess ['b']) } ∧
    (wbP.handleGuessEvent ['b']).1.slots 14 = wbP.slots 14 :=
  ⟨(C5_partial_solve_frame wbP ['b'] 15 qP (by decide) (by decide)).1,
   (C5_partial_solve_frame wbP ['b'] 15 qP (by decide) (by decide)).2.1 14 (by decide)⟩

/-- C6: after a full solve away from the faller, `won` is set exactly when the
player queue is empty and every slot is empty after the clear and shift; the
criterion nowhere involves the attack queue, and no other path of
`handleGuessEvent` sets `won`. -/
theorem C6_win_check :
    (∀ (gb : GameBoard) (g : Word) (i : Nat) (q : Question),
      firstHit gb.slots (normalizeGuess g) = some (i, q) →
      (q.answerMap.erase (normalizeGuess g)).isEmpty = true →
      gb.fallerPos ≠ (i : Int) → gb.queue = [] →
      ((List.range NumSlots).all fun k =>
        ((shiftDownLoop gb.fallerPos (Function.update gb.slots i none) (i - 1)) k).isNone) = true →
      (gb.handleGuessEvent g).1.won = true) ∧
    (∀ (gb : GameBoard) (g : Word), (gb.handleGuessEvent g).1.won = true →
      gb.won = true ∨ ∃ i q, firstHit gb.slots (normalizeGuess g) = some (i, q) ∧
        (q.answerMap.erase (normalizeGuess g)).isEmpty = true ∧
        gb.fallerPos ≠ (i : Int) ∧ gb.queue = [] ∧
        ((List.range NumSlots).all fun k =>
          ((shiftDownLoop gb.fallerPos (Function.update gb.slots i none) (i - 1)) k).isNone) = true) := by
  constructor
  · intro gb g i q hh he hfp hqe hall
    rw [handleGuessEvent_full_nonfaller gb g i q hh he hfp]
    rw [if_pos ⟨hqe, hall⟩]
  · intro gb g hw
    cases hh : firstHit gb.slots (normalizeGuess g) with
    | none =>
      left
      by_cases hpun : ∃ j ∈ List.range NumSlots,
          (j : Int) = gb.fallerPos ∧ wrongAt gb.slots (normalizeGuess g) j
      · obtain ⟨j, hjr, hjf, hwr⟩ := hpun
        have hp := handleGuessEvent_punish gb g j (List.mem_range.mp hjr) hjf hwr hh
        by_cases ht : gb.topOfStack = 0
        · rw [hp.1 ht] at hw; exact hw
        · rw [hp.2 ht] at hw; exact hw
      · rw [handleGuessEvent_no_hit gb g hh hpun] at hw
        exact hw
    | some iq =>
      obtain ⟨i, q⟩ := iq
      by_cases he : (q.answerMap.erase (normalizeGuess g)).isEmpty = true
      · by_cases hfp : gb.fallerPos = (i : Int)
        · rw [handleGuessEvent_full_faller gb g i q hh he hfp] at hw
          exact Or.inl hw
        · rw [handleGuessEvent_full_nonfaller gb g i q hh he hfp] at hw
          by_cases hcnd : gb.queue = [] ∧ ((List.range NumSlots).all fun k =>
            ((shiftDownLoop gb.fallerPos (Function.update gb.slots i none) (i - 1)) k).isNone) = true
          · exact Or.inr ⟨i, q, rfl, he, hfp, hcnd.1, hcnd.2⟩
          · rw [if_neg hcnd] at hw
            exact Or.inl hw
      · have hne : (q.answerMap.erase (normalizeGuess g)).isEmpty = false :=
          Bool.eq_false_iff.mpr he
        rw [handleGuessEvent_partialSolve gb g i q hh hne] at hw
        exact Or.inl hw

/-- C6 witness: clearing the last slot wins the board even though an attack is
still queued against it. -/
theorem C6_witness :
    (wbW.handleGuessEvent ['b']).1.won = true ∧ wbW.oppQueue ≠ [] :=
  ⟨C6_win_check.1 wbW ['b'] 15 qB (by decide) (by decide) (by decide) (by decide)
    (by decide), by decide⟩

/-- C7: a guess that hits no slot but whose sorted form equals the lowercased
alphagram of the faller's question punishes: the timer ends up rescheduled at
a quarter tick, the faller is swapped into slot `topOfStack - 1`, the faller
position is cleared, a `PieceLand` change is recorded and the status becomes
`PieceAboutToDrop`; when `topOfStack = 0` the board instead dies with its
timer stopped. -/
theorem C7_punish_drop :
    ∀ (gb : GameBoard) (g : Word) (j : Nat), j < NumSlots →
      (j : Int) = gb.fallerPos →
      wrongAt gb.slots (normalizeGuess g) j →
      firstHit gb.slots (normalizeGuess g) = none →
      (gb.topOfStack = 0 →
        (gb.handleGuessEvent g).1.dead = true ∧ (gb.handleGuessEvent g).1.timer = none) ∧
      (gb.topOfStack ≠ 0 →
        (gb.handleGuessEvent g).1 =
          { gb with timer := some (TickDuration / 4),
                    slots := swapSlots gb.slots j (gb.topOfStack - 1),
                    lastStateChange := { changeType := .PieceLand, payloadNum := (gb.topOfStack : Int) - 1, payloadNum2 := gb.fallerPos },
                    fallerPos := -1, status := .PieceAboutToDrop } ∧
        (gb.handleGuessEvent g).2.1 = none) := by
  intro gb g j hj hjf hw hh
  have hp := handleGuessEvent_punish gb g j hj hjf hw hh
  constructor
  · intro ht
    rw [hp.1 ht]
    exact ⟨rfl, rfl⟩
  · intro ht
    rw [hp.2 ht]
    exact ⟨rfl, rfl⟩

/-- C7 witness: the punishment drop lands the faller of `wbF` on its stack. -/
theorem C7_witness :
    (wbF.handleGuessEvent ['b','a']).1 =
      { wbF with timer := some (TickDuration / 4),
                 slots := swapSlots wbF.slots 2 (wbF.topOfStack - 1),
                 lastStateChange := { changeType := .PieceLand, payloadNum := (wbF.topOfStack : Int) - 1, payloadNum2 := wbF.fallerPos },
                 fallerPos := -1, status := .PieceAboutToDrop } :=
  ((C7_punish_drop wbF ['b','a'] 2 (by decide) (by decide) (by decide) (by decide)).2
    (by decide)).1

/-- C8: a round start fails with `too few questions left` exactly when the
shuffled list minus the question offset holds fewer than fifty alphagrams; on
success the offset advances by fifty, and on failure during the countdown the
loop exits with the manager unchanged but for status `PermanentlyOver`,
emitting one final snapshot. -/
theorem C8_start_too_few :
    ∀ (gs : GameStateManager) (shuffled : List WSAlphagram),
      (((shuffled.length : Int) - (gs.questionOffset : Int) < (TotalNumQuestions : Int)) →
        start gs shuffled = Except.error "too few questions left") ∧
      (¬((shuffled.length : Int) - (gs.questionOffset : Int) < (TotalNumQuestions : Int)) →
        ∃ gs', start gs shuffled = Except.ok gs' ∧
          gs'.questionOffset = gs.questionOffset + TotalNumQuestions) ∧
      (gs.status = .Countdown →
        ((shuffled.length : Int) - (gs.questionOffset : Int) < (TotalNumQuestions : Int)) →
        loopCountdownTimerEvent gs shuffled =
          ({ gs with status := .PermanentlyOver }, true, 1)) := by
  intro gs shuffled
  refine ⟨?_, ?_, ?_⟩
  · intro hlt
    unfold start
    rw [if_pos hlt]
  · intro hge
    unfold start
    rw [if_neg hge]
    exact ⟨_, rfl, rfl⟩
  · intro hst hlt
    have he : start gs shuffled = Except.error "too few questions left" := by
      unfold start
      rw [if_pos hlt]
    unfold loopCountdownTimerEvent
    rw [if_pos hst, he]

/-- C8 witness: with one question already consumed from a fifty-question list,
the countdown start fails and the loop permanently ends. -/
theorem C8_witness :
    loopCountdownTimerEvent gsX shufX = ({ gsX with status := .PermanentlyOver }, true, 1) :=
  (C8_start_too_few gsX shufX).2.2 (by decide) (by decide)

/-- C9: a dealt question stores the code-point-sorted form of the provider's
alphagram with owner `idx % 2` and a fully populated lowercased answer map —
but the stored string is not lowercased, contrary to the claim (see the
counterexample); only the answer map is. -/
theorem C9_alphagram_normalization :
    ∀ (idx : Nat) (alph : WSAlphagram),
      (mkStartQuestion idx alph).origQuestion.alphagram = alphagrammize alph.alphagram ∧
      (mkStartQuestion idx alph).whose = idx % 2 ∧
      (mkStartQuestion idx alph).answerMap = (alph.words.map toLowerW).dedup ∧
      List.Sorted (· ≤ ·) (alphagrammize alph.alphagram) ∧
      (alphagrammize alph.alphagram).Perm alph.alphagram := by
  intro idx alph
  exact ⟨rfl, rfl, rfl, List.sorted_insertionSort _ _, List.perm_insertionSort _ _⟩

/-- C9 counterexample: dealing the upper-case alphagram `AELPP` stores it
verbatim, not in the claimed lowercased sorted form `aelpp`. -/
theorem C9_counterexample :
    (mkStartQuestion 0 { alphagram := ['A','E','L','P','P'], words := [['a','p','p','l','e']] }).origQuestion.alphagram = ['A','E','L','P','P'] ∧
    (mkStartQuestion 0 { alphagram := ['A','E','L','P','P'], words := [['a','p','p','l','e']] }).origQuestion.alphagram ≠
      toLowerW (alphagrammize ['A','E','L','P','P']) := by decide

/-- C10: with no piece in flight, a guess found in no slot's answer map is a
complete no-op returning `false`: the punish branch requires the wrong slot's
index to equal the faller position, and no slot index equals `-1`. -/
theorem C10_no_faller_no_punish :
    ∀ (gb : GameBoard) (g : Word), gb.fallerPos = -1 →
      firstHit gb.slots (normalizeGuess g) = none →
      gb.handleGuessEvent g = (gb, none, false) := by
  intro gb g hf hh
  apply handleGuessEvent_no_hit gb g hh
  rintro ⟨j, hjr, hjf, hwr⟩
  rw [hf] at hjf
  omega

/-- C10 witness: a wrong guess that is an anagram of the settled question at
slot 15 leaves the board of `wbT` untouched. -/
theorem C10_witness : wbT.handleGuessEvent ['b','a'] = (wbT, none, false) :=
  C10_no_faller_no_punish wbT ['b','a'] (by decide) (by decide)
